import Mathlib

/-
Verification of the spycraft reactive-cell runtime (Spook) against its
specification.  The definitions below are a shallow embedding of the
JavaScript sources: the base cell class (spook.js), the latch derivative
(latchSpook.js), the shared cache (spookCache.js) and the promise bridge.
Observer callbacks are opaque, so each operation returns, besides the new
cell state, a trace of the observer invocations and side effects it
performed, in order.
-/

namespace Spycraft

/-- JavaScript values as handled by the runtime: JSON-representable data
plus the undefined sentinel and null.  Numbers are modelled as integers;
object fields keep insertion order, as JS objects do. -/
inductive JsVal : Type
  | undef : JsVal
  | null : JsVal
  | bool (b : Bool) : JsVal
  | num (n : Int) : JsVal
  | str (s : String) : JsVal
  | arr (elems : List JsVal) : JsVal
  | obj (fields : List (String × JsVal)) : JsVal
  deriving Repr

mutual

/-- Boolean structural equality on JsVal (used only to derive decidable
equality for the nested inductive). -/
def jsBeq : JsVal → JsVal → Bool
  | .undef, .undef => true
  | .null, .null => true
  | .bool a, .bool b => a == b
  | .num a, .num b => a == b
  | .str a, .str b => a == b
  | .arr a, .arr b => jsBeqList a b
  | .obj a, .obj b => jsBeqFields a b
  | _, _ => false

def jsBeqList : List JsVal → List JsVal → Bool
  | [], [] => true
  | x :: xs, y :: ys => jsBeq x y && jsBeqList xs ys
  | _, _ => false

def jsBeqFields : List (String × JsVal) → List (String × JsVal) → Bool
  | [], [] => true
  | (k, v) :: xs, (k2, v2) :: ys => k == k2 && jsBeq v v2 && jsBeqFields xs ys
  | _, _ => false

end

mutual

theorem jsBeq_iff : ∀ a b : JsVal, jsBeq a b = true ↔ a = b
  | .undef, b => by cases b <;> simp [jsBeq]
  | .null, b => by cases b <;> simp [jsBeq]
  | .bool a, b => by cases b <;> simp [jsBeq]
  | .num a, b => by cases b <;> simp [jsBeq]
  | .str a, b => by cases b <;> simp [jsBeq]
  | .arr a, b => by
      cases b <;> simp [jsBeq]
      rw [jsBeqList_iff]
  | .obj a, b => by
      cases b <;> simp [jsBeq]
      rw [jsBeqFields_iff]

theorem jsBeqList_iff : ∀ xs ys : List JsVal, jsBeqList xs ys = true ↔ xs = ys
  | [], [] => by simp [jsBeqList]
  | [], _ :: _ => by simp [jsBeqList]
  | _ :: _, [] => by simp [jsBeqList]
  | x :: xs, y :: ys => by
      rw [jsBeqList, Bool.and_eq_true, jsBeq_iff x y, jsBeqList_iff xs ys]
      simp

theorem jsBeqFields_iff :
    ∀ xs ys : List (String × JsVal), jsBeqFields xs ys = true ↔ xs = ys
  | [], [] => by simp [jsBeqFields]
  | [], _ :: _ => by simp [jsBeqFields]
  | _ :: _, [] => by simp [jsBeqFields]
  | (k, v) :: xs, (k2, v2) :: ys => by
      rw [jsBeqFields, Bool.and_eq_true, Bool.and_eq_true,
        jsBeq_iff v v2, jsBeqFields_iff xs ys]
      simp

end

instance : DecidableEq JsVal := fun a b =>
  decidable_of_iff (jsBeq a b = true) (jsBeq_iff a b)

/-- Minimal JSON string escaping used by JSON.stringify for the characters
relevant here. -/
def escapeChar (c : Char) : String :=
  if c = '\"' then "\\\""
  else if c = '\\' then "\\\\"
  else if c = '\n' then "\\n"
  else if c = '\t' then "\\t"
  else if c = '\r' then "\\r"
  else String.singleton c

def quoteStr (s : String) : String :=
  "\"" ++ String.join (s.toList.map escapeChar) ++ "\""

mutual

/-- JSON.stringify on the modelled values.  Returns none exactly when the
argument is the undefined sentinel (JSON.stringify of undefined is
undefined).  Inside arrays an undefined element prints as null; inside
objects a field whose value is undefined is skipped. -/
def stringify : JsVal → Option String
  | .undef => none
  | .null => some "null"
  | .bool b => some (cond b "true" "false")
  | .num n => some (toString n)
  | .str s => some (quoteStr s)
  | .arr xs => some ("[" ++ String.intercalate "," (stringifyList xs) ++ "]")
  | .obj fs => some ("\x7b" ++ String.intercalate "," (stringifyFields fs) ++ "\x7d")

/-- Array elements: undefined renders as null. -/
def stringifyList : List JsVal → List String
  | [] => []
  | x :: xs =>
    (match stringify x with
     | none => "null"
     | some s => s) :: stringifyList xs

/-- Object fields: a field whose value stringifies to undefined is dropped. -/
def stringifyFields : List (String × JsVal) → List String
  | [] => []
  | (k, v) :: fs =>
    match stringify v with
    | none => stringifyFields fs
    | some s => (quoteStr k ++ ":" ++ s) :: stringifyFields fs

end

/-- Source (spook.js):
function equivalent (a, b) returns JSON.stringify(a) === JSON.stringify(b). -/
def equivalent (a b : JsVal) : Bool :=
  stringify a == stringify b

/-- State of a base Spook cell (class Spook, spook.js).  Observer callbacks
are opaque, so the three observer collections hold only their registration
tokens (the JS Symbols), in registration order; the nextId counter supplies
fresh tokens.  The defaultTo slot mirrors the JS field directly, with the
undefined sentinel meaning the default was never configured. -/
structure Spook where
  /-- this._subscribers: tie tokens in registration order. -/
  subscribers : List Nat := []
  /-- this._thens: queued one-shot callbacks, here named by tokens. -/
  thens : List Nat := []
  /-- this._notifies: readiness-notifier tokens in registration order. -/
  notifies : List Nat := []
  /-- this._ready -/
  ready : Bool := false
  /-- this._value -/
  value : JsVal := .null
  /-- this._triggering: none when no trigger is in progress, otherwise the
  value being become (the JS object with field becoming). -/
  triggering : Option JsVal := none
  /-- this._mayBeNull -/
  mayBeNull : Bool := true
  /-- this._users -/
  users : Nat := 0
  /-- this._uuid (null when no cache identity is configured) -/
  uuid : Option String := none
  /-- this._noCache -/
  noCache : Bool := false
  /-- this._defaultTo; the undefined sentinel while never assigned. -/
  defaultTo : JsVal := (.undef)
  /-- fresh-Symbol supply for registration tokens (modelling device). -/
  nextId : Nat := 0
  deriving Repr, DecidableEq

/-- Observable side effects of an operation, in the order they happen.
Observer callbacks are opaque, so an invocation is recorded as an event
naming the registration token that owns the callback. -/
inductive Event : Type
  | /-- a readiness-notifier callback was invoked (no arguments) -/
    notifyCb (token : Nat) : Event
  | /-- a change-subscriber callback was invoked with the given value -/
    subCb (token : Nat) (v : JsVal) : Event
  | /-- a queued one-shot then-callback was drained with the given value -/
    thenCb (token : Nat) (v : JsVal) : Event
  | /-- a then-callback ran immediately at registration (cell was ready) -/
    thenNow (v : JsVal) : Event
  | /-- this.drop() was entered -/
    dropCall : Event
  | /-- the subclass initialise hook was invoked -/
    initialiseHook : Event
  | /-- the subclass finalise hook was invoked -/
    finaliseHook : Event
  | /-- Spook.cache.initialise(uuid, this, ...) was invoked -/
    cacheInit (uuid : String) : Event
  | /-- Spook.cache.finalise(uuid, this) was invoked -/
    cacheFin (uuid : String) : Event
  | /-- Spook.cache.changed(uuid, v) was invoked (cache publication) -/
    cachePub (uuid : String) (v : JsVal) : Event
  | /-- console.warn or console.error diagnostic -/
    warn (msg : String) : Event
  | /-- the user callback given to done() was invoked -/
    doneCb (v : JsVal) : Event
  deriving Repr, DecidableEq

/-- Result of an operation on one cell: the new state, the trace of
effects, and the message of an Error thrown part-way (none on normal
return).  A JS exception does not roll state back, so the state field is
meaningful even when err is set. -/
structure OpRes where
  s : Spook
  trace : List Event
  err : Option String := none
  deriving Repr, DecidableEq

/-- JS truthiness of this._uuid: null and the empty string are falsy. -/
def uuidTruthy : Option String → Bool
  | none => false
  | some u => u ≠ ""

/-- The condition (!this._uuid || !!this._noCache || !Spook.cache) guarding
the non-cache paths of use() and drop().  The parameter cp states whether
Spook.cache is set (truthy). -/
def localLifecycle (cp : Bool) (s : Spook) : Bool :=
  !uuidTruthy s.uuid || s.noCache || !cp

/-- Source drop() (spook.js, lines 365-377): throws on user-count zero,
otherwise decrements, and on reaching zero runs the finalise hook or
delegates to the shared cache. -/
def dropOp (cp : Bool) (s : Spook) : OpRes :=
  if s.users = 0 then
    ⟨s, [.dropCall],
      some "mismatched use()/drop(): drop() called once more than expected!"⟩
  else
    let s1 : Spook := { s with users := s.users - 1 }
    if s1.users = 0 then
      if localLifecycle cp s1 then
        ⟨s1, [.dropCall, .finaliseHook], none⟩
      else
        ⟨s1, [.dropCall, .cacheFin (s1.uuid.getD "")], none⟩
    else
      ⟨s1, [.dropCall], none⟩

/-- Source use() (spook.js, lines 347-357): on the 0 to 1 transition runs
the initialise hook or delegates to the shared cache, then increments.
The cache delegation is recorded as an event; its world-level effects are
interpreted by the cache model further below. -/
def useOp (cp : Bool) (s : Spook) : Spook × List Event :=
  let ev : List Event :=
    if s.users = 0 then
      if localLifecycle cp s then [.initialiseHook] else [.cacheInit (s.uuid.getD "")]
    else []
  ({ s with users := s.users + 1 }, ev)

/-- The loop this._thens.forEach(cb st cb(this._value); this.drop()) inside
trigger().  Each drained callback is followed by a drop(); if a drop
throws, the exception propagates and the remaining callbacks do not run. -/
def drainThens (cp : Bool) (s : Spook) : List Nat → Spook × List Event × Option String
  | [] => (s, [], none)
  | t :: rest =>
    let r := dropOp cp s
    match r.err with
    | some e => (r.s, .thenCb t s.value :: r.trace, some e)
    | none =>
      let (s2, tr2, e2) := drainThens cp r.s rest
      (s2, .thenCb t s.value :: r.trace ++ tr2, e2)

/-- Tail of trigger() (spook.js, lines 331-335): after the body ran, a
propagating exception leaves the triggering sentinel set; otherwise the
sentinel is cleared and, when the cell is cache-identified and the shared
cache exists, the new value is published to it. -/
def triggerFinish (cp : Bool) (newValue : JsVal) (body : OpRes) : OpRes :=
  match body.err with
  | some e => ⟨body.s, body.trace, some e⟩
  | none =>
    let s4 : Spook := { body.s with triggering := none }
    if uuidTruthy s4.uuid && !s4.noCache && cp then
      ⟨s4, body.trace ++ [.cachePub (s4.uuid.getD "") newValue], none⟩
    else
      ⟨s4, body.trace, none⟩

mutual

/-- Source trigger() (spook.js, lines 303-336), fuelled only to satisfy
the termination checker on the trigger-reset cycle; fuel 4 is enough for
every reachable chain because a nested trigger always stops at the
triggering guard.  Rejects the undefined sentinel, rejects reentrant
invocation (warn, no state change), otherwise sets the triggering
sentinel, either resets (null on a null-forbidding cell) or becomes ready
and fires readiness-notifiers, change-subscribers and the one-shot queue
in order, clears the sentinel, and finally publishes to the shared cache
when a cache identity is configured. -/
def triggerF (cp : Bool) : Nat → Spook → JsVal → OpRes
  | 0, s, _ => ⟨s, [], some "model: fuel exhausted"⟩
  | fuel + 1, s, newValue =>
    if newValue = .undef then
      ⟨s, [.warn "Trigger called with undefined value"], none⟩
    else if s.triggering ≠ none then
      ⟨s, [.warn "Trigger cannot be called while already triggering."], none⟩
    else
      let s1 : Spook := { s with triggering := some newValue }
      let body : OpRes :=
        if s1.mayBeNull = false ∧ newValue = .null then
          resetF cp fuel s1
        else
          let s2 : Spook := { s1 with ready := true, value := newValue }
          let evN := s2.notifies.map Event.notifyCb
          let evS := s2.subscribers.map (fun t => Event.subCb t s2.value)
          let (s3, evT, e) := drainThens cp s2 s2.thens
          match e with
          | some err => ⟨s3, evN ++ evS ++ evT, some err⟩
          | none => ⟨{ s3 with thens := [] }, evN ++ evS ++ evT, none⟩
      triggerFinish cp newValue body

/-- Source reset() (spook.js, lines 253-263): with a configured default,
triggers that default; otherwise, when ready, clears readiness and fires
the readiness-notifiers (change-subscribers stay silent). -/
def resetF (cp : Bool) : Nat → Spook → OpRes
  | 0, s => ⟨s, [], some "model: fuel exhausted"⟩
  | fuel + 1, s =>
    if s.defaultTo ≠ .undef then
      triggerF cp fuel s s.defaultTo
    else if s.ready then
      ⟨{ s with ready := false, value := .null }, s.notifies.map Event.notifyCb, none⟩
    else
      ⟨s, [], none⟩

end

/-- trigger() at its canonical fuel. -/
def triggerOp (cp : Bool) (s : Spook) (v : JsVal) : OpRes := triggerF cp 4 s v

/-- reset() at its canonical fuel. -/
def resetOp (cp : Bool) (s : Spook) : OpRes := resetF cp 4 s

/-- Source changed() (spook.js, lines 277-287): ignores the undefined
sentinel; null resets a null-forbidding cell; otherwise triggers exactly
when the cell is not ready or the new value is not canonically equal to
the current one. -/
def changedOp (cp : Bool) (s : Spook) (v : JsVal) : OpRes :=
  if v = .undef then ⟨s, [], none⟩
  else if s.mayBeNull = false ∧ v = .null then resetOp cp s
  else if s.ready = false ∨ equivalent v s.value = false then triggerOp cp s v
  else ⟨s, [], none⟩

/-- Source defaultTo() (spook.js, lines 239-245). -/
def defaultToOp (cp : Bool) (s : Spook) (v : JsVal) : OpRes :=
  let s1 : Spook := { s with defaultTo := v }
  if s1.ready = false then triggerOp cp s1 v else ⟨s1, [], none⟩

/-- Source notify() (spook.js, lines 436-444): implicit use(), register a
fresh token, invoke the callback immediately when the cell is ready,
return the token. -/
def notifyOp (cp : Bool) (s : Spook) : Spook × Nat × List Event :=
  let u := useOp cp s
  let id := u.1.nextId
  let s2 : Spook := { u.1 with notifies := u.1.notifies ++ [id], nextId := id + 1 }
  if s2.ready then (s2, id, u.2 ++ [.notifyCb id]) else (s2, id, u.2)

/-- Source unnotify() (spook.js, lines 455-462). -/
def unnotifyOp (cp : Bool) (s : Spook) (id : Nat) : OpRes :=
  if id ∈ s.notifies then
    let r := dropOp cp { s with notifies := s.notifies.erase id }
    ⟨r.s, r.trace, r.err⟩
  else
    ⟨s, [.warn "untie on from old or non-existent notifyee ID"], none⟩

/-- Source tie() (spook.js, lines 484-492): implicit use(), register a
fresh token, invoke the callback immediately with the current value when
ready, return the token. -/
def tieOp (cp : Bool) (s : Spook) : Spook × Nat × List Event :=
  let u := useOp cp s
  let id := u.1.nextId
  let s2 : Spook := { u.1 with subscribers := u.1.subscribers ++ [id], nextId := id + 1 }
  if s2.ready then (s2, id, u.2 ++ [.subCb id s2.value]) else (s2, id, u.2)

/-- Source untie() (spook.js, lines 503-510). -/
def untieOp (cp : Bool) (s : Spook) (id : Nat) : OpRes :=
  if id ∈ s.subscribers then
    let r := dropOp cp { s with subscribers := s.subscribers.erase id }
    ⟨r.s, r.trace, r.err⟩
  else
    ⟨s, [.warn "untie on from old or non-existent subscriber ID"], none⟩

/-- Source then() (spook.js, lines 621-630): implicit use(); when ready,
run the callback at once and drop; otherwise queue it until the next
ready transition. -/
def thenOp (cp : Bool) (s : Spook) : OpRes :=
  let u := useOp cp s
  if u.1.ready then
    let r := dropOp cp u.1
    ⟨r.s, u.2 ++ [.thenNow u.1.value] ++ r.trace, r.err⟩
  else
    ⟨{ u.1 with thens := u.1.thens ++ [u.1.nextId], nextId := u.1.nextId + 1 }, u.2, none⟩

/-- The guard (this.isDone === undefined) at the top of done() (spook.js,
line 650).  Class Spook itself defines the method isDone (line 414,
returning false), so the property lookup never yields undefined and the
guard is identically false: the throw below it is unreachable. -/
def isDoneAbsent (_s : Spook) : Bool := false

/-- Source done() (spook.js, lines 649-662).  The isDone predicate of the
cell (the base implementation or a subclass override) is passed as a
function.  done ties a cleanup closure; when the cell is already ready,
tie invokes that closure before the registration token is assigned, so
its untie call inside refers to an unset id and only warns. -/
def doneOp (cp : Bool) (isDoneP : JsVal → Bool) (s : Spook) : OpRes × Nat :=
  if isDoneAbsent s then
    (⟨s, [], some "Cannot call done() on Spook that has no implementation of isDone."⟩, 0)
  else
    let u := useOp cp s
    let id := u.1.nextId
    let s2 : Spook := { u.1 with subscribers := u.1.subscribers ++ [id], nextId := id + 1 }
    if s2.ready then
      if isDoneP s2.value then
        (⟨s2, u.2 ++ [.doneCb s2.value,
          .warn "untie on from old or non-existent subscriber ID"], none⟩, id)
      else (⟨s2, u.2, none⟩, id)
    else (⟨s2, u.2, none⟩, id)

/- ------------------------------------------------------------------ -/
/- Latch cell (latchSpook.js) modelled as a two-cell world.             -/
/- ------------------------------------------------------------------ -/

/-- State of a LatchSpook beyond its base cell: whether the _poll closure
still exists, the stored notifyId registration token, and whether the
_targetSpook reference is still set. -/
structure LatchSt where
  base : Spook
  hasPoll : Bool := true
  notifyId : Option Nat := none
  hasTarget : Bool := true
  deriving Repr, DecidableEq

/-- A world of one latch and its target cell. -/
structure LWorld where
  target : Spook
  latch : LatchSt
  deriving Repr, DecidableEq

/-- World-level events, tagged by the cell they happened on. -/
inductive LEvent : Type
  | onTarget (e : Event) : LEvent
  | onLatch (e : Event) : LEvent
  deriving Repr, DecidableEq

/-- LatchSpook constructor (latchSpook.js, lines 22-46): inherits
may-be-null from the target unless overridden; a supplied default makes
the cell ready with that value at once (fields are assigned directly,
without trigger). -/
def mkLatchSpook (target : Spook) (d : JsVal) (mbn : Option Bool)
    (cache : Option String) : LatchSt :=
  let base0 : Spook := { mayBeNull := mbn.getD target.mayBeNull, uuid := cache }
  let base1 : Spook := if d ≠ .undef then { base0 with ready := true, value := d } else base0
  { base := base1 }

/-- The _poll closure (latchSpook.js, lines 32-45): when the target is
ready, adopt its value via changed, then, when a notifyId was stored,
unnotify from the target and drop the target reference; in both cases
delete the closure itself. -/
def pollW (cp : Bool) (w : LWorld) : LWorld × List LEvent × Option String :=
  if w.latch.hasTarget then
    if w.target.ready then
      let r := changedOp cp w.latch.base w.target.value
      match r.err with
      | some e =>
        ({ w with latch := { w.latch with base := r.s } },
          r.trace.map LEvent.onLatch, some e)
      | none =>
        match w.latch.notifyId with
        | some nid =>
          let r2 := unnotifyOp cp w.target nid
          ({ target := r2.s,
             latch := { base := r.s, hasPoll := false, notifyId := some nid,
                        hasTarget := false } },
            r.trace.map LEvent.onLatch ++ r2.trace.map LEvent.onTarget, r2.err)
        | none =>
          ({ w with latch := { w.latch with base := r.s, hasPoll := false } },
            r.trace.map LEvent.onLatch, none)
    else (w, [], none)
  else
    (w, [LEvent.onLatch (.warn "poll called when targetSpook is not set. This cannot happen.")],
      none)

/-- LatchSpook.initialise (latchSpook.js, lines 48-63): register the poll
as a readiness-notifier on the target; registering invokes the poll at
once when the target is already ready (with notifyId still unset), in
which case the poll has deleted itself and the registration is undone
immediately; otherwise store the token and run the poll once. -/
def latchInitialiseW (cp : Bool) (w : LWorld) : LWorld × List LEvent × Option String :=
  if w.latch.hasPoll then
    let n := notifyOp cp w.target
    let w1 : LWorld := { w with target := n.1 }
    let evReg := n.2.2.map LEvent.onTarget
    let afterCb : LWorld × List LEvent × Option String :=
      if n.1.ready then pollW cp w1 else (w1, [], none)
    match afterCb with
    | (w2, ev2, some e) => (w2, evReg ++ ev2, some e)
    | (w2, ev2, none) =>
      if w2.latch.hasPoll then
        let w3 : LWorld := { w2 with latch := { w2.latch with notifyId := some n.2.1 } }
        let p := pollW cp w3
        (p.1, evReg ++ ev2 ++ p.2.1, p.2.2)
      else
        let r2 := unnotifyOp cp w2.target n.2.1
        ({ target := r2.s, latch := { w2.latch with hasTarget := false } },
          evReg ++ ev2 ++ r2.trace.map LEvent.onTarget, r2.err)
  else (w, [], none)

/-- LatchSpook.finalise (latchSpook.js, lines 65-69). -/
def latchFinaliseW (cp : Bool) (w : LWorld) : LWorld × List LEvent × Option String :=
  if w.latch.hasTarget then
    match w.latch.notifyId with
    | some nid =>
      let r := unnotifyOp cp w.target nid
      ({ w with target := r.s }, r.trace.map LEvent.onTarget, r.err)
    | none =>
      (w, [LEvent.onTarget (.warn "untie on from old or non-existent notifyee ID")], none)
  else (w, [], none)

/-- tie() on the latch at world level: the implicit use() runs the
subclass initialise hook on the 0 to 1 transition (the latches of the
claims carry no cache identity), then the subscriber is registered and
invoked at once when the latch is ready. -/
def lwTie (cp : Bool) (w : LWorld) : LWorld × Nat × List LEvent × Option String :=
  let pre : LWorld × List LEvent × Option String :=
    if w.latch.base.users = 0 then
      if localLifecycle cp w.latch.base then latchInitialiseW cp w
      else (w, [LEvent.onLatch (.cacheInit (w.latch.base.uuid.getD ""))], none)
    else (w, [], none)
  match pre with
  | (w1, ev1, some e) => (w1, 0, ev1, some e)
  | (w1, ev1, none) =>
    let b1 : Spook := { w1.latch.base with users := w1.latch.base.users + 1 }
    let id := b1.nextId
    let b2 : Spook := { b1 with subscribers := b1.subscribers ++ [id], nextId := id + 1 }
    let w2 : LWorld := { w1 with latch := { w1.latch with base := b2 } }
    if b2.ready then (w2, id, ev1 ++ [LEvent.onLatch (.subCb id b2.value)], none)
    else (w2, id, ev1, none)

/-- Interpretation of a target trigger trace in the latch world: each
invocation of the readiness-notifier registered by the latch runs the
poll closure; every other event only concerns third parties. -/
def runTargetTrace (cp : Bool) : LWorld → List Event → LWorld × List LEvent × Option String
  | w, [] => (w, [], none)
  | w, e :: rest =>
    let step : LWorld × List LEvent × Option String :=
      match e with
      | .notifyCb tok =>
        if w.latch.notifyId = some tok then
          let p := pollW cp w
          (p.1, LEvent.onTarget e :: p.2.1, p.2.2)
        else (w, [LEvent.onTarget e], none)
      | _ => (w, [LEvent.onTarget e], none)
    match step with
    | (w1, ev1, some er) => (w1, ev1, some er)
    | (w1, ev1, none) =>
      let k := runTargetTrace cp w1 rest
      (k.1, ev1 ++ k.2.1, k.2.2)

/-- trigger(v) on the target at world level: run the cell-level trigger,
then interpret the recorded notifier invocations against the latch. -/
def lwTargetTrigger (cp : Bool) (w : LWorld) (v : JsVal) :
    LWorld × List LEvent × Option String :=
  let r := triggerOp cp w.target v
  let w1 : LWorld := { w with target := r.s }
  match r.err with
  | some e => (w1, r.trace.map LEvent.onTarget, some e)
  | none => runTargetTrace cp w1 r.trace

/- ------------------------------------------------------------------ -/
/- Shared cache (spookCache.js) world model.                            -/
/- ------------------------------------------------------------------ -/

/-- Association-list lookup (a JS object keyed by strings). -/
def alget {α : Type} : List (String × α) → String → Option α
  | [], _ => none
  | (k, v) :: rest, key => if k = key then some v else alget rest key

/-- Association-list assignment: overwrite in place or append. -/
def alset {α : Type} : List (String × α) → String → α → List (String × α)
  | [], key, v => [(key, v)]
  | (k, w) :: rest, key, v =>
    if k = key then (k, v) :: rest else (k, w) :: alset rest key v

/-- Association-list deletion. -/
def aldel {α : Type} : List (String × α) → String → List (String × α)
  | [], _ => []
  | (k, w) :: rest, key =>
    if k = key then aldel rest key else (k, w) :: aldel rest key

/-- JS falsiness of a possibly-absent string (absent or empty). -/
def strFalsy : Option String → Bool
  | none => true
  | some s => s = ""

/-- Storage key holding the serialised last-known value of a UUID
(spookCache.js: the literal prefix followed by a dot). -/
def valueKey (uuid : String) : String := "$_Spooks." ++ uuid

/-- Storage key holding the session id of the owner of a UUID
(spookCache.js: the literal prefix followed by a caret). -/
def ownerKey (uuid : String) : String := "$_Spooks^" ++ uuid

/-- Per-UUID registration (spookCache.js constructor of the regs entries).
The stringify and parse functions of a registration are carried as world
parameters; users and primary hold spook indices. -/
structure CacheReg where
  owned : Bool := false
  deferred : Bool := false
  users : List Nat := []
  primary : Option Nat := none
  deriving Repr, DecidableEq

/-- A cache world: the local spooks (indexed by position), the cache
registrations, the shared storage, the fresh session id and the optional
defer-to-parent prefix, plus the log of messages posted to the parent. -/
structure CWorld where
  spooks : List Spook
  regs : List (String × CacheReg) := []
  storage : List (String × String) := []
  sessionId : String
  deferParentPrefix : Option String := none
  posted : List String := []
  deriving Repr, DecidableEq

def getSpook (w : CWorld) (i : Nat) : Spook := (w.spooks.get? i).getD {}

def setSpook (w : CWorld) (i : Nat) (s : Spook) : CWorld :=
  { w with spooks := w.spooks.set i s }

/-- SpookCache.ensureActive (spookCache.js, lines 214-248): clean up an
orphan primary; then, for a registration with users and no primary that
is not deferred, either defer to the parent (prefix match) or adopt: claim
the owner key when absent, and when owning, promote the last user to
primary and initialise it (the base initialise hook has no effect). -/
def ensureActiveW (w : CWorld) (uuid : String) (key : String) : CWorld :=
  match alget w.regs uuid with
  | none => w
  | some item0 =>
    let step1 : CWorld × CacheReg :=
      if item0.users.length > 0 ∧ item0.primary ≠ none ∧ item0.owned = false then
        let it : CacheReg := { item0 with primary := none, owned := false }
        ({ w with regs := alset w.regs uuid it }, it)
      else (w, item0)
    let w1 := step1.1
    let item1 := step1.2
    if item1.users.length > 0 ∧ item1.primary = none ∧ item1.deferred = false then
      let deferCond : Bool :=
        match w1.deferParentPrefix with
        | none => false
        | some pfx => uuid.startsWith pfx
      if deferCond then
        let it2 : CacheReg := { item1 with deferred := true }
        { w1 with regs := alset w1.regs uuid it2,
                  posted := w1.posted ++ ["useSpook:" ++ uuid] }
      else
        let st1 :=
          if strFalsy (alget w1.storage key) then alset w1.storage key w1.sessionId
          else w1.storage
        let w2 : CWorld := { w1 with storage := st1 }
        if alget w2.storage key = some w2.sessionId then
          match item1.users.getLast? with
          | none => w2
          | some pid =>
            let it2 : CacheReg :=
              { item1 with users := item1.users.dropLast, primary := some pid,
                           owned := true }
            { w2 with regs := alset w2.regs uuid it2 }
        else w2
    else w1

/-- SpookCache.finalise (spookCache.js, lines 157-212).  The keepAround
policy constant is true in the source, so a finalised primary is retained
cold (owned set to false); a non-primary spook is removed from users,
notifying the parent when a deferred registration loses its last user;
a registration left with no primary, no deferral and no users is removed. -/
def cacheFinaliseW (w : CWorld) (uuid : String) (sid : Nat) : CWorld :=
  match alget w.regs uuid with
  | none => w
  | some item =>
    let w1 : CWorld :=
      if item.primary = some sid then
        let keepAround := true
        if keepAround then
          { w with regs := alset w.regs uuid { item with owned := false } }
        else
          let it : CacheReg := { item with primary := none }
          let w2 : CWorld := { w with regs := alset w.regs uuid it }
          if it.users.length = 0 then
            if alget w2.storage (ownerKey uuid) = some w2.sessionId then
              { w2 with storage := aldel w2.storage (ownerKey uuid) }
            else w2
          else ensureActiveW w2 uuid (ownerKey uuid)
      else
        let it : CacheReg := { item with users := item.users.filter (fun b => b ≠ sid) }
        let w2 : CWorld := { w with regs := alset w.regs uuid it }
        if it.users.length = 0 ∧ it.deferred = true then
          { w2 with regs := alset w2.regs uuid { it with deferred := false },
                    posted := w2.posted ++ ["dropSpook:" ++ uuid] }
        else w2
    match alget w1.regs uuid with
    | none => w1
    | some itemAfter =>
      if itemAfter.primary = none ∧ itemAfter.deferred = false ∧
          itemAfter.users.length = 0 then
        { w1 with regs := aldel w1.regs uuid }
      else w1

mutual

/-- Interpret the cache-directed events of a cell-level trace produced by
an operation on spook sid; fuel bounds the cache-and-cell recursion of
the source (mutual method calls), which is finite in every modelled run. -/
def interpEventsW (sf : JsVal → String) (pf : String → JsVal)
    (fuel : Nat) (w : CWorld) (sid : Nat) (events : List Event) : Option CWorld :=
  match fuel, events with
  | 0, _ => none
  | _ + 1, [] => some w
  | fuel + 1, e :: rest =>
    let step : Option CWorld :=
      match e with
      | .cachePub uuid v => cacheChangedW sf pf fuel w uuid v
      | .cacheFin uuid => some (cacheFinaliseW w uuid sid)
      | .cacheInit uuid => cacheInitialiseW sf pf fuel w uuid sid
      | _ => some w
    match step with
    | none => none
    | some w1 => interpEventsW sf pf fuel w1 sid rest
termination_by structural fuel

/-- changed(v) on spook sid inside the cache world. -/
def spookChangedW (sf : JsVal → String) (pf : String → JsVal)
    (fuel : Nat) (w : CWorld) (sid : Nat) (v : JsVal) : Option CWorld :=
  match fuel with
  | 0 => none
  | fuel + 1 =>
    let r := changedOp true (getSpook w sid) v
    match r.err with
    | some _ => none
    | none => interpEventsW sf pf fuel (setSpook w sid r.s) sid r.trace
termination_by structural fuel

/-- reset() on spook sid inside the cache world. -/
def spookResetW (sf : JsVal → String) (pf : String → JsVal)
    (fuel : Nat) (w : CWorld) (sid : Nat) : Option CWorld :=
  match fuel with
  | 0 => none
  | fuel + 1 =>
    let r := resetOp true (getSpook w sid)
    match r.err with
    | some _ => none
    | none => interpEventsW sf pf fuel (setSpook w sid r.s) sid r.trace
termination_by structural fuel

/-- SpookCache.changed (spookCache.js, lines 141-155): only when this
instance owns the UUID (owner key equals our session id), write the
serialised value under the value key and mirror it into every user; an
undefined value deletes the key and resets every user. -/
def cacheChangedW (sf : JsVal → String) (pf : String → JsVal)
    (fuel : Nat) (w : CWorld) (uuid : String) (v : JsVal) : Option CWorld :=
  match fuel with
  | 0 => none
  | fuel + 1 =>
    match alget w.regs uuid with
    | none => some w
    | some item =>
      if alget w.storage (ownerKey uuid) = some w.sessionId then
        if v = .undef then
          let w1 : CWorld := { w with storage := aldel w.storage (valueKey uuid) }
          usersResetLoop sf pf fuel w1 item.users
        else
          let w1 : CWorld := { w with storage := alset w.storage (valueKey uuid) (sf v) }
          usersChangedLoop sf pf fuel w1 item.users v
      else some w
termination_by structural fuel

/-- item.users.forEach(spook changed v). -/
def usersChangedLoop (sf : JsVal → String) (pf : String → JsVal)
    (fuel : Nat) (w : CWorld) (sids : List Nat) (v : JsVal) : Option CWorld :=
  match fuel, sids with
  | 0, _ => none
  | _ + 1, [] => some w
  | fuel + 1, sid :: rest =>
    match spookChangedW sf pf fuel w sid v with
    | none => none
    | some w1 => usersChangedLoop sf pf fuel w1 rest v
termination_by structural fuel

/-- item.users.forEach(spook reset). -/
def usersResetLoop (sf : JsVal → String) (pf : String → JsVal)
    (fuel : Nat) (w : CWorld) (sids : List Nat) : Option CWorld :=
  match fuel, sids with
  | 0, _ => none
  | _ + 1, [] => some w
  | fuel + 1, sid :: rest =>
    match spookResetW sf pf fuel w sid with
    | none => none
    | some w1 => usersResetLoop sf pf fuel w1 rest
termination_by structural fuel

/-- SpookCache.initialise (spookCache.js, lines 90-123): for a fresh UUID
create the registration, restore a persisted value into the cell, and
run ensure-active; re-flag a reactivated cold primary as owned; otherwise
append to users and mirror the value of an equivalent ready cell. -/
def cacheInitialiseW (sf : JsVal → String) (pf : String → JsVal)
    (fuel : Nat) (w : CWorld) (uuid : String) (sid : Nat) : Option CWorld :=
  match fuel with
  | 0 => none
  | fuel + 1 =>
    match alget w.regs uuid with
    | none =>
      let reg : CacheReg := { owned := false, deferred := false, users := [sid], primary := none }
      let w1 : CWorld := { w with regs := alset w.regs uuid reg }
      let afterRestore : Option CWorld :=
        match alget w1.storage (valueKey uuid) with
        | some str => spookChangedW sf pf fuel w1 sid (pf str)
        | none => some w1
      match afterRestore with
      | none => none
      | some w2 => some (ensureActiveW w2 uuid (ownerKey uuid))
    | some item =>
      if item.primary = some sid then
        some { w with regs := alset w.regs uuid { item with owned := true } }
      else
        let item1 : CacheReg := { item with users := item.users ++ [sid] }
        let w1 : CWorld := { w with regs := alset w.regs uuid item1 }
        let equiv : Option Nat :=
          match item1.primary with
          | some p => some p
          | none => item1.users.head?
        match equiv with
        | none => some w1
        | some eid =>
          if (getSpook w1 eid).ready then
            spookChangedW sf pf fuel w1 sid (getSpook w1 eid).value
          else some w1
termination_by structural fuel

end

/-- use() on spook sid in the cache world (spook.js, lines 347-357): on
the 0 to 1 transition the cache-identified path delegates to the cache
before the count is incremented. -/
def wUse (sf : JsVal → String) (pf : String → JsVal) :
    Nat → CWorld → Nat → Option CWorld
  | 0, _, _ => none
  | fuel + 1, w, sid =>
    let s := getSpook w sid
    if s.users = 0 then
      let after : Option CWorld :=
        if localLifecycle true s then some w
        else cacheInitialiseW sf pf fuel w (s.uuid.getD "") sid
      match after with
      | none => none
      | some w1 =>
        let s1 := getSpook w1 sid
        some (setSpook w1 sid { s1 with users := s1.users + 1 })
    else
      some (setSpook w sid { s with users := s.users + 1 })

/-- drop() on spook sid in the cache world (spook.js, lines 365-377);
none models the usage-underflow throw. -/
def wDrop (w : CWorld) (sid : Nat) : Option CWorld :=
  let s := getSpook w sid
  if s.users = 0 then none
  else
    let s1 : Spook := { s with users := s.users - 1 }
    let w1 := setSpook w sid s1
    if s1.users = 0 then
      if localLifecycle true s1 then some w1
      else some (cacheFinaliseW w1 (s1.uuid.getD "") sid)
    else some w1

/-- The canonical serialiser configured for the concrete cache cells of
the examples (JSON.stringify; a cache cell never stores undefined). -/
def jsonStringifyOrNull (v : JsVal) : String := (stringify v).getD "null"

/-- The parse function configured for the concrete cache cells of the
examples (JSON.parse restricted to the one serialised value, 42, that
the example storage holds). -/
def intParse (str : String) : JsVal := if str = "42" then .num 42 else .null

/-- Concrete starting world for the cache examples: one fresh
cache-identified cell, a persisted value 42 in shared storage, no
registrations, no owner. -/
def exampleWorld : CWorld :=
  { spooks := [{ uuid := some "u" }], storage := [("$_Spooks.u", "42")],
    sessionId := "aabbccdd" }

/-- Concrete world in which this instance already owns uuid u and the
registration has an empty mirror list. -/
def exampleWorldOwned : CWorld :=
  { spooks := [{ uuid := some "u" }], regs := [("u", { users := [] })],
    storage := [("$_Spooks^u", "aabbccdd")], sessionId := "aabbccdd" }

/-- Concrete world with one registered mirror, no primary and no owner
key yet. -/
def exampleWorldUnowned : CWorld :=
  { spooks := [{ uuid := some "u" }], regs := [("u", { users := [0] })],
    storage := [], sessionId := "aabbccdd" }

/- ------------------------------------------------------------------ -/
/- Session identifier (spookCache.js constructor, line 80).             -/
/- ------------------------------------------------------------------ -/

/-- Hex digit character as produced by Number.toString(16). -/
def hexDigitChar (n : Nat) : Char :=
  if n < 10 then Char.ofNat (48 + n) else Char.ofNat (87 + n)

/-- Hex digits of n, most significant first; empty for zero. -/
def hexDigits : Nat → List Char
  | 0 => []
  | n + 1 => hexDigits ((n + 1) / 16) ++ [hexDigitChar ((n + 1) % 16)]
decreasing_by exact Nat.div_lt_self (Nat.succ_pos _) (by norm_num)

/-- Number.prototype.toString(16) on a natural number, as a character
list. -/
def jsToString16List (n : Nat) : List Char :=
  if n = 0 then ['0'] else hexDigits n

/-- The session identifier computed at SpookCache construction:
Math.floor((1 + Math.random()) times 0x100000000).toString(16).substr(1),
as a function of the floored product n, which ranges over
[2 to the 32, 2 to the 33). substr(1) drops the first character. -/
def sessionIdOf (n : Nat) : String :=
  ⟨(jsToString16List n).drop 1⟩

/- ------------------------------------------------------------------ -/
/- Promise bridge (spook.js, lines 935-965).                            -/
/- ------------------------------------------------------------------ -/

/-- An item passed to Spook.promise: a cell (observed through its
one-shot then), a pending future, or a plain value. -/
inductive PItem : Type
  | plain (v : JsVal) : PItem
  | spook (s : Spook) : PItem
  | future : PItem
  deriving Repr, DecidableEq

/-- Settlement of the bridged promise: resolve receives the resolved
array as it stands; rejection carries no payload here. -/
inductive POutcome : Type
  | resolvedWith (slots : List (Option JsVal)) : POutcome
  | rejected : POutcome
  deriving Repr, DecidableEq

/-- The closure state of Spook.promise: the finished counter, the sparse
resolved array (none marks an unset slot) and the first settlement, if
any (later resolve and reject calls are ignored by the Promise). -/
structure PromiseRun where
  finished : Nat
  resolved : List (Option JsVal)
  outcome : Option POutcome
  deriving Repr, DecidableEq

/-- The inner done(index, value) of Spook.promise: store the value,
bump the counter, and resolve exactly when the counter reaches the
length of the resolved array (ignored if already settled). -/
def doneStep (st : PromiseRun) (i : Nat) (v : JsVal) : PromiseRun :=
  let resolved := st.resolved.set i (some v)
  let finished := st.finished + 1
  { finished := finished, resolved := resolved,
    outcome :=
      if finished = resolved.length ∧ st.outcome = none
      then some (.resolvedWith resolved) else st.outcome }

/-- A contained future rejecting: the promise settles rejected unless
already settled. -/
def rejectStep (st : PromiseRun) : PromiseRun :=
  { st with outcome := if st.outcome = none then some .rejected else st.outcome }

/-- The forEach pass over the items: a plain value is done immediately;
a ready cell runs its one-shot then synchronously, so it is done
immediately too; a pending cell or future contributes nothing yet. -/
def promiseInitAux : List PItem → Nat → PromiseRun → PromiseRun
  | [], _, st => st
  | item :: rest, i, st =>
    let st1 :=
      match item with
      | .plain v => doneStep st i v
      | .spook s => if s.ready then doneStep st i s.value else st
      | .future => st
    promiseInitAux rest (i + 1) st1

/-- Spook.promise(list) up to the point where the executor returns: the
counter starts at zero, the resolved array has the length of the list,
and the initial pass has processed every item. -/
def promiseInit (items : List PItem) : PromiseRun :=
  promiseInitAux items 0
    { finished := 0, resolved := List.replicate items.length none, outcome := none }

/-- Later resolutions of pending cells and futures, in arrival order. -/
def applySteps (st : PromiseRun) (steps : List (Nat × JsVal)) : PromiseRun :=
  steps.foldl (fun a p => doneStep a p.1 p.2) st

/-- Number of filled slots of the resolved array. -/
def countSome (l : List (Option JsVal)) : Nat :=
  (l.filter (fun o => o.isSome)).length

/-- The resolved array after a sequence of slot writes. -/
def writeSteps (l : List (Option JsVal)) (steps : List (Nat × JsVal)) :
    List (Option JsVal) :=
  steps.foldl (fun r p => r.set p.1 (some p.2)) l

/-- The value with which an item resolves during the initial forEach
pass, when it does: plain values immediately, cells immediately exactly
when ready (their one-shot then fires synchronously), futures never. -/
def immVal : PItem → Option JsVal
  | .plain v => some v
  | .spook s => if s.ready then some s.value else none
  | .future => none

/-- The (index, value) resolutions performed by the initial pass,
starting at index i. -/
def immStepsFrom : Nat → List PItem → List (Nat × JsVal)
  | _, [] => []
  | i, item :: rest =>
    match immVal item with
    | some v => (i, v) :: immStepsFrom (i + 1) rest
    | none => immStepsFrom (i + 1) rest

/-- The resolutions performed by the initial pass of Spook.promise. -/
def immSteps (items : List PItem) : List (Nat × JsVal) :=
  immStepsFrom 0 items

/-- Draining the one-shot queue: when strictly more users than queued
one-shots exist, every callback fires with the current value, each
followed by its balancing drop, no drop reaches zero, and no error is
raised. -/
theorem drainThens_spec (cp : Bool) :
    ∀ (ts : List Nat) (s : Spook), ts.length < s.users →
      drainThens cp s ts =
        ({ s with users := s.users - ts.length },
          ts.flatMap (fun t => [Event.thenCb t s.value, Event.dropCall]), none)
  | [], s, _ => by
      simp [drainThens]
  | t :: rest, s, h => by
      have hlen : rest.length + 1 < s.users := by simpa using h
      have hu : ¬(s.users = 0) := by omega
      have hu1 : ¬(s.users - 1 = 0) := by omega
      have ih := drainThens_spec cp rest { s with users := s.users - 1 }
        (by simpa using (by omega : rest.length < s.users - 1))
      simp only [drainThens, dropOp, if_neg hu, if_neg hu1, ih]
      have harith : s.users - 1 - rest.length = s.users - (t :: rest).length := by
        simp only [List.length_cons]
        omega
      simp [harith]

/-- Full description of a successful trigger on a valid, idle cell:
becomes ready with the new value; the trace lists readiness-notifiers in
registration order, then change-subscribers in registration order with
the new value, then the drained one-shots each followed by its drop, and
finally the cache publication when the cell is cache-identified; the
one-shot queue is emptied, the user count shrinks by the number of
drained one-shots and the triggering sentinel ends cleared. -/
theorem triggerOp_spec (cp : Bool) (s : Spook) (v : JsVal)
    (ht : s.triggering = none) (hv : v ≠ .undef)
    (hn : ¬(s.mayBeNull = false ∧ v = .null))
    (hu : s.thens.length < s.users) :
    triggerOp cp s v =
      ⟨{ s with ready := true, value := v, thens := [],
                users := s.users - s.thens.length, triggering := none },
        s.notifies.map Event.notifyCb
          ++ s.subscribers.map (fun t => Event.subCb t v)
          ++ s.thens.flatMap (fun t => [Event.thenCb t v, Event.dropCall])
          ++ (if uuidTruthy s.uuid && !s.noCache && cp
              then [Event.cachePub (s.uuid.getD "") v] else []),
        none⟩ := by
  have hd := drainThens_spec cp s.thens
    { s with triggering := some v, ready := true, value := v } (by simpa using hu)
  simp only [triggerOp, triggerF, if_neg hv]
  rw [if_neg (by simp [ht])]
  rw [if_neg hn]
  simp only [hd, triggerFinish]
  split <;> simp

/-- Canonical equality holds exactly when serialisations agree. -/
theorem equivalent_true {a b : JsVal} (h : stringify a = stringify b) :
    equivalent a b = true := by
  simp [equivalent, h]

/-- Canonical inequality from differing serialisations. -/
theorem equivalent_false {a b : JsVal} (h : stringify a ≠ stringify b) :
    equivalent a b = false := by
  simp only [equivalent, beq_eq_false_iff_ne, ne_eq]
  exact h

/-- changed(v) on a ready cell whose current value is canonically equal
to v is a complete no-op. -/
theorem changedOp_noop (cp : Bool) (s1 : Spook) (v2 : JsVal)
    (h2 : v2 ≠ .undef) (hn2 : ¬(s1.mayBeNull = false ∧ v2 = .null))
    (hr : s1.ready = true) (he : equivalent v2 s1.value = true) :
    changedOp cp s1 v2 = ⟨s1, [], none⟩ := by
  simp only [changedOp, if_neg h2, if_neg hn2]
  rw [if_neg]
  simp [hr, he]

/-- C1: for every cell and every proposed value v that is not the
undefined sentinel (and not null on a cell that disallows null), a
successful trigger(v) on an idle cell with enough users for its queued
one-shots sets the cell ready with value v and performs its effects in
this order: all readiness-notifiers in registration order, then all
change-subscribers in registration order (each passed v), then every
queued one-shot then-callback, each drained callback followed by a drop()
that balances the implicit use() of its registration (the user count ends
lowered by the number of drained one-shots), and finally, when the cell
has a cache identity and the shared cache exists, publication of v to the
shared cache, after every observer has run. -/
theorem C1_trigger_order (cp : Bool) (s : Spook) (v : JsVal)
    (ht : s.triggering = none) (hv : v ≠ .undef)
    (hn : ¬(s.mayBeNull = false ∧ v = .null))
    (hu : s.thens.length < s.users) :
    triggerOp cp s v =
      ⟨{ s with ready := true, value := v, thens := [],
                users := s.users - s.thens.length, triggering := none },
        s.notifies.map Event.notifyCb
          ++ s.subscribers.map (fun t => Event.subCb t v)
          ++ s.thens.flatMap (fun t => [Event.thenCb t v, Event.dropCall])
          ++ (if uuidTruthy s.uuid && !s.noCache && cp
              then [Event.cachePub (s.uuid.getD "") v] else []),
        none⟩ :=
  triggerOp_spec cp s v ht hv hn hu

/-- Witness for C1 at a concrete cell with one notifier, two subscribers,
one queued one-shot and a cache identity. -/
theorem C1_trigger_order_witness :
    triggerOp true
      { subscribers := [5, 6], notifies := [3], thens := [7], users := 2,
        uuid := some "u", nextId := 8 } (.num 69) =
      ⟨{ subscribers := [5, 6], notifies := [3], thens := [], users := 1,
         ready := true, value := .num 69, uuid := some "u", nextId := 8,
         triggering := none },
        [.notifyCb 3, .subCb 5 (.num 69), .subCb 6 (.num 69),
          .thenCb 7 (.num 69), .dropCall, .cachePub "u" (.num 69)],
        none⟩ := by
  rw [C1_trigger_order true _ _ rfl (by decide) (by decide) (by decide)]
  decide

/-- C2: on a valid idle cell, changed(v1) followed by changed(v2) with
identical serialisations performs exactly one underlying transition: the
first call triggers, the second returns the state untouched with an empty
trace (no readiness-notifier, no change-subscriber, no one-shot); and on
a ready cell changed(v) transitions exactly when the serialisation of v
differs from that of the current value. -/
theorem C2_canonical_equality (cp : Bool) (s : Spook) (v1 v2 : JsVal)
    (ht : s.triggering = none)
    (h1 : v1 ≠ .undef) (h2 : v2 ≠ .undef)
    (hn1 : ¬(s.mayBeNull = false ∧ v1 = .null))
    (hn2 : ¬(s.mayBeNull = false ∧ v2 = .null))
    (heq : stringify v1 = stringify v2)
    (hfirst : s.ready = false ∨ equivalent v1 s.value = false)
    (hu : s.thens.length < s.users) :
    changedOp cp s v1 = triggerOp cp s v1 ∧
    changedOp cp (changedOp cp s v1).s v2 = ⟨(changedOp cp s v1).s, [], none⟩ ∧
    (∀ v : JsVal, s.ready = true → v ≠ .undef →
      ¬(s.mayBeNull = false ∧ v = .null) →
      changedOp cp s v =
        (if stringify v = stringify s.value then ⟨s, [], none⟩
         else triggerOp cp s v)) := by
  have hstep : changedOp cp s v1 = triggerOp cp s v1 := by
    simp only [changedOp, if_neg h1, if_neg hn1]
    rw [if_pos hfirst]
  refine ⟨hstep, ?_, ?_⟩
  · have hs1 : (changedOp cp s v1).s =
        { s with ready := true, value := v1, thens := [],
                 users := s.users - s.thens.length, triggering := none } := by
      rw [hstep, triggerOp_spec cp s v1 ht h1 hn1 hu]
    refine changedOp_noop cp _ v2 h2 ?_ ?_ ?_
    · rw [hs1]
      simpa using hn2
    · rw [hs1]
    · rw [hs1]
      exact equivalent_true heq.symm
  · intro v hr hv hnv
    by_cases hs : stringify v = stringify s.value
    · rw [if_pos hs]
      exact changedOp_noop cp s v hv hnv hr (equivalent_true hs)
    · rw [if_neg hs]
      simp only [changedOp, if_neg hv, if_neg hnv]
      rw [if_pos (Or.inr (equivalent_false hs))]

/-- Witness for C2 at a ready cell holding 42, with v1 = v2 = 7. -/
theorem C2_canonical_equality_witness :
    changedOp true { ready := true, value := .num 42, users := 1 } (.num 7) =
      triggerOp true { ready := true, value := .num 42, users := 1 } (.num 7) ∧
    changedOp true
        (changedOp true { ready := true, value := .num 42, users := 1 } (.num 7)).s
        (.num 7) =
      ⟨(changedOp true { ready := true, value := .num 42, users := 1 } (.num 7)).s,
        [], none⟩ ∧
    changedOp true { ready := true, value := .num 42, users := 1 } (.num 7) =
      (if stringify (.num 7) = stringify (.num 42)
       then ⟨{ ready := true, value := .num 42, users := 1 }, [], none⟩
       else triggerOp true { ready := true, value := .num 42, users := 1 } (.num 7)) := by
  have h := C2_canonical_equality true
    { ready := true, value := .num 42, users := 1 } (.num 7) (.num 7)
    rfl (by decide) (by decide) (by decide) (by decide) rfl
    (Or.inr (by decide)) (by decide)
  exact ⟨h.1, h.2.1, h.2.2 (.num 7) rfl (by decide) (by decide)⟩

/-- When the trigger tail returns without error, the triggering sentinel
is cleared, whatever the body did. -/
theorem triggerFinish_clears (cp : Bool) (v : JsVal) (b : OpRes) :
    (triggerFinish cp v b).err = none →
    (triggerFinish cp v b).s.triggering = none := by
  cases hbe : b.err with
  | none =>
    intro _
    simp only [triggerFinish, hbe]
    split <;> rfl
  | some e =>
    intro h
    simp [triggerFinish, hbe] at h

/-- C3: for every cell, trigger while a trigger is already in progress is
a warn-and-ignore no-op leaving the whole state exactly unchanged; and a
trigger entered with a clear sentinel that returns without error ends
with the sentinel cleared again, so a later non-reentrant trigger is not
rejected. -/
theorem C3_reentrant_trigger (cp : Bool) (s : Spook) (v : JsVal)
    (hv : v ≠ .undef) :
    (∀ w, s.triggering = some w →
      triggerOp cp s v =
        ⟨s, [.warn "Trigger cannot be called while already triggering."], none⟩) ∧
    (s.triggering = none → (triggerOp cp s v).err = none →
      (triggerOp cp s v).s.triggering = none) := by
  constructor
  · intro w hw
    simp [triggerOp, triggerF, if_neg hv, hw]
  · intro h0
    simp only [triggerOp, triggerF, if_neg hv]
    rw [if_neg (by simp [h0])]
    exact triggerFinish_clears cp v _

/-- Witness for C3: a reentrant trigger at a concrete busy cell changes
nothing, and a completed trigger at a concrete idle cell clears the
sentinel. -/
theorem C3_reentrant_trigger_witness :
    triggerOp true
        { triggering := some (.num 1), ready := true, value := .num 1,
          users := 1, subscribers := [0] } (.num 2) =
      ⟨{ triggering := some (.num 1), ready := true, value := .num 1,
         users := 1, subscribers := [0] },
        [.warn "Trigger cannot be called while already triggering."], none⟩ ∧
    (triggerOp true { users := 1 } (.num 2)).s.triggering = none := by
  refine ⟨(C3_reentrant_trigger true _ _ (by decide)).1 (.num 1) rfl, ?_⟩
  exact (C3_reentrant_trigger true { users := 1 } (.num 2) (by decide)).2 rfl (by decide)

/-- C4: drop() on a cell with user-count 0 raises the usage-underflow
error and changes nothing; with user-count n+1 it decrements to n and,
exactly when n = 0, runs the finalisation path: the shared cache
finalise when a cache identity is configured and a cache exists,
otherwise the subclass finalise hook. -/
theorem C4_drop_underflow (cp : Bool) (s : Spook) (hnc : s.noCache = false) :
    (s.users = 0 →
      dropOp cp s =
        ⟨s, [.dropCall],
          some "mismatched use()/drop(): drop() called once more than expected!"⟩) ∧
    (∀ n, s.users = n + 1 →
      dropOp cp s =
        ⟨{ s with users := n },
          if n = 0 then
            [Event.dropCall,
              if uuidTruthy s.uuid && cp then Event.cacheFin (s.uuid.getD "")
              else Event.finaliseHook]
          else [Event.dropCall], none⟩) := by
  constructor
  · intro h
    simp [dropOp, h]
  · intro n hn
    have h0 : ¬(s.users = 0) := by omega
    have h1 : s.users - 1 = n := by omega
    by_cases hz : n = 0
    · subst hz
      simp only [dropOp, if_neg h0, h1, localLifecycle, hnc]
      cases hcfg : uuidTruthy s.uuid <;> cases cp <;> simp_all
    · simp [dropOp, if_neg h0, h1, hz]

/-- Witness for C4: underflow at user-count 0; a 1 to 0 drop on a
cache-identified cell runs the cache finalise; a 2 to 1 drop finalises
nothing. -/
theorem C4_drop_underflow_witness :
    dropOp true { uuid := some "u" } =
      ⟨{ uuid := some "u" }, [.dropCall],
        some "mismatched use()/drop(): drop() called once more than expected!"⟩ ∧
    dropOp true { users := 1, uuid := some "u" } =
      ⟨{ users := 0, uuid := some "u" }, [.dropCall, .cacheFin "u"], none⟩ ∧
    dropOp true { users := 2, uuid := some "u" } =
      ⟨{ users := 1, uuid := some "u" }, [.dropCall], none⟩ := by
  refine ⟨(C4_drop_underflow true _ rfl).1 rfl, ?_, ?_⟩
  · have h := (C4_drop_underflow true { users := 1, uuid := some "u" } rfl).2 0 rfl
    simpa using h
  · have h := (C4_drop_underflow true { users := 2, uuid := some "u" } rfl).2 1 rfl
    simpa using h

/-- C9 failing input: done() on a base cell whose isDone predicate is not
overridden (the base implementation always returns false) does not throw;
it returns normally having tied a cleanup subscriber.  The guard in the
source compares the method lookup this.isDone against undefined, which
never holds because class Spook defines isDone, so the DoneUnsupported
throw is unreachable dead code. -/
theorem C9_done_does_not_throw :
    ((doneOp true (fun _ => false) { }).1).err = none ∧
    ((doneOp true (fun _ => false) { }).1).s.subscribers = [0] ∧
    ((doneOp true (fun _ => false) { }).1).trace = [Event.initialiseHook] := by
  decide

/-- C10: notify(f) on a cell that is ready at registration invokes f
exactly once, synchronously, before returning the fresh token; on a cell
that is not ready it does not invoke f during registration.  The
returned trace makes the immediate invocation explicit and the callback
count is one exactly when the cell is ready. -/
theorem C10_notify_immediate (cp : Bool) (s : Spook) :
    notifyOp cp s =
      ({ s with notifies := s.notifies ++ [s.nextId], users := s.users + 1,
                nextId := s.nextId + 1 },
        s.nextId,
        (if s.users = 0 then
          if localLifecycle cp s then [Event.initialiseHook]
          else [Event.cacheInit (s.uuid.getD "")]
         else []) ++ (if s.ready then [Event.notifyCb s.nextId] else [])) ∧
    ((notifyOp cp s).2.2).count (Event.notifyCb s.nextId) =
      (if s.ready then 1 else 0) := by
  have h1 : notifyOp cp s =
      ({ s with notifies := s.notifies ++ [s.nextId], users := s.users + 1,
                nextId := s.nextId + 1 },
        s.nextId,
        (if s.users = 0 then
          if localLifecycle cp s then [Event.initialiseHook]
          else [Event.cacheInit (s.uuid.getD "")]
         else []) ++ (if s.ready then [Event.notifyCb s.nextId] else [])) := by
    simp only [notifyOp, useOp]
    split_ifs <;> simp
  refine ⟨h1, ?_⟩
  rw [h1]
  split_ifs <;> simp [List.count_cons, List.count_nil]

/- Lemmas about the promise bridge. -/

theorem countSome_cons (a : Option JsVal) (l : List (Option JsVal)) :
    countSome (a :: l) = (if a.isSome then 1 else 0) + countSome l := by
  cases a <;> simp [countSome, Nat.add_comm]

theorem countSome_nil : countSome [] = 0 := rfl

theorem countSome_le (l : List (Option JsVal)) : countSome l ≤ l.length := by
  induction l with
  | nil => simp [countSome]
  | cons a as ih =>
    rw [countSome_cons]
    cases a <;> simp <;> omega

theorem countSome_set_none {l : List (Option JsVal)} {i : Nat} (v : JsVal)
    (h : l[i]? = some none) :
    countSome (l.set i (some v)) = countSome l + 1 := by
  induction l generalizing i with
  | nil => simp at h
  | cons a as ih =>
    cases i with
    | zero =>
      simp at h
      subst h
      simp [List.set, countSome_cons]
      omega
    | succ j =>
      simp at h
      simp [List.set, countSome_cons, ih h]
      cases a <;> simp <;> omega

theorem countSome_lt_of_none {l : List (Option JsVal)} {i : Nat}
    (h : l[i]? = some none) : countSome l < l.length := by
  induction l generalizing i with
  | nil => simp at h
  | cons a as ih =>
    cases i with
    | zero =>
      simp at h
      subst h
      rw [countSome_cons]
      have := countSome_le as
      simp
      omega
    | succ j =>
      simp at h
      rw [countSome_cons]
      have := ih h
      cases a <;> simp <;> omega

theorem writeSteps_nil (l : List (Option JsVal)) : writeSteps l [] = l := rfl

theorem writeSteps_cons (l : List (Option JsVal)) (i : Nat) (v : JsVal)
    (steps : List (Nat × JsVal)) :
    writeSteps l ((i, v) :: steps) = writeSteps (l.set i (some v)) steps := rfl

theorem length_writeSteps (steps : List (Nat × JsVal)) :
    ∀ l : List (Option JsVal), (writeSteps l steps).length = l.length := by
  induction steps with
  | nil => intro l; rfl
  | cons p rest ih =>
    intro l
    rw [show writeSteps l (p :: rest) = writeSteps (l.set p.1 (some p.2)) rest from rfl,
      ih, List.length_set]

theorem writeSteps_getElem_not_mem {steps : List (Nat × JsVal)} {i : Nat}
    (h : i ∉ steps.map Prod.fst) :
    ∀ l : List (Option JsVal), (writeSteps l steps)[i]? = l[i]? := by
  induction steps with
  | nil => intro l; rfl
  | cons p rest ih =>
    intro l
    simp only [List.map_cons, List.mem_cons] at h
    push_neg at h
    rw [show writeSteps l (p :: rest) = writeSteps (l.set p.1 (some p.2)) rest from rfl,
      ih h.2, List.getElem?_set_ne (by omega)]

theorem writeSteps_getElem_of_mem {steps : List (Nat × JsVal)} {i : Nat} {v : JsVal}
    (hnodup : (steps.map Prod.fst).Nodup) (hmem : (i, v) ∈ steps) :
    ∀ l : List (Option JsVal), i < l.length →
      (writeSteps l steps)[i]? = some (some v) := by
  induction steps with
  | nil => simp at hmem
  | cons p rest ih =>
    intro l hi
    simp only [List.map_cons, List.nodup_cons] at hnodup
    rcases List.mem_cons.mp hmem with h | h
    · subst h
      rw [show writeSteps l ((i, v) :: rest) = writeSteps (l.set i (some v)) rest from rfl,
        writeSteps_getElem_not_mem hnodup.1, List.getElem?_set_self' ]
      simp [hi]
    · have hiv : i ∈ rest.map Prod.fst := by
        exact List.mem_map.mpr ⟨(i, v), h, rfl⟩
      rw [show writeSteps l (p :: rest) = writeSteps (l.set p.1 (some p.2)) rest from rfl]
      exact ih hnodup.2 h _ (by simpa using hi)

/-- Once the bridged promise has settled, later done calls cannot change
the settlement (resolve on a settled promise is ignored). -/
theorem applySteps_settled {o : POutcome} :
    ∀ (steps : List (Nat × JsVal)) (st : PromiseRun),
      st.outcome = some o → (applySteps st steps).outcome = some o := by
  intro steps
  induction steps with
  | nil => intro st h; exact h
  | cons p rest ih =>
    intro st h
    have hstep : (doneStep st p.1 p.2).outcome = some o := by
      simp [doneStep, h]
    exact ih _ hstep

/-- Completion of the bridged promise: starting from an unsettled state
whose counter matches its filled slots, a sequence of done calls hitting
every unfilled slot exactly once (and nothing else) settles the promise
with the fully written array, exactly at the last call. -/
theorem applySteps_completes :
    ∀ (steps : List (Nat × JsVal)) (st : PromiseRun),
      st.finished = countSome st.resolved →
      st.outcome = none →
      (∀ p ∈ steps, st.resolved[p.1]? = some none) →
      (steps.map Prod.fst).Nodup →
      (∀ i, st.resolved[i]? = some none → i ∈ steps.map Prod.fst) →
      steps ≠ [] →
      applySteps st steps =
        { finished := st.resolved.length,
          resolved := writeSteps st.resolved steps,
          outcome := some (.resolvedWith (writeSteps st.resolved steps)) } := by
  intro steps
  induction steps with
  | nil => intro st _ _ _ _ _ hne; exact absurd rfl hne
  | cons p rest ih =>
    intro st hfin hout hidx hnodup hcover _
    obtain ⟨i, v⟩ := p
    have hslot : st.resolved[i]? = some none := hidx (i, v) (by simp)
    have hilen : i < st.resolved.length := by
      by_contra hge
      rw [List.getElem?_eq_none (by omega)] at hslot
      exact Option.noConfusion hslot
    have hset : (st.resolved.set i (some v))[i]? = some (some v) := by
      rw [List.getElem?_set_self']
      simp [hilen]
    have hcount := countSome_set_none v hslot
    cases rest with
    | nil =>
      have hall : countSome (st.resolved.set i (some v)) = st.resolved.length := by
        have hle := countSome_le (st.resolved.set i (some v))
        rw [List.length_set] at hle
        rcases Nat.lt_or_ge (countSome (st.resolved.set i (some v))) st.resolved.length
          with hlt | hge
        · exfalso
          have hex : ∃ j : Nat, (st.resolved.set i (some v))[j]? = some none := by
            by_contra hno
            push_neg at hno
            have hmem : ∀ o ∈ st.resolved.set i (some v), o.isSome = true := by
              intro o ho
              obtain ⟨j, hj, hjo⟩ := List.mem_iff_getElem.mp ho
              cases o with
              | none =>
                exact absurd (by rw [List.getElem?_eq_getElem hj, hjo]) (hno j)
              | some _ => rfl
            have heqn : countSome (st.resolved.set i (some v)) =
                (st.resolved.set i (some v)).length := by
              unfold countSome
              rw [List.filter_eq_self.mpr (by intro o ho; simpa using hmem o ho)]
            rw [List.length_set] at heqn
            omega
          obtain ⟨j, hj⟩ := hex
          have hji : j ≠ i := by
            intro he
            rw [he, hset] at hj
            simp at hj
          have hj2 : st.resolved[j]? = some none := by
            have hne3 : (st.resolved.set i (some v))[j]? = st.resolved[j]? :=
              List.getElem?_set_ne (by omega)
            rw [hne3] at hj
            exact hj
          have hmem := hcover j hj2
          rw [List.map_cons] at hmem
          rcases List.mem_cons.mp hmem with h | h
          · exact hji h
          · simp at h
        · omega
      have hdone : doneStep st i v =
          { finished := st.resolved.length,
            resolved := st.resolved.set i (some v),
            outcome := some (.resolvedWith (st.resolved.set i (some v))) } := by
        simp only [doneStep]
        rw [List.length_set]
        have hfn : st.finished + 1 = st.resolved.length := by omega
        simp [hfn, hout]
      show applySteps (doneStep st i v) [] = _
      rw [show applySteps (doneStep st i v) [] = doneStep st i v from rfl, hdone]
      rfl
    | cons q qrest =>
      rw [List.map_cons, List.nodup_cons] at hnodup
      have hq : st.resolved[q.1]? = some none :=
        hidx q (List.mem_cons.mpr (Or.inr (List.mem_cons.mpr (Or.inl rfl))))
      have hqi : q.1 ≠ i := by
        intro he
        exact hnodup.1 (by
          rw [← he, List.map_cons]
          exact List.mem_cons_self _ _)
      have hq2 : (st.resolved.set i (some v))[q.1]? = some none := by
        rw [List.getElem?_set_ne (by omega)]
        exact hq
      have hlt := countSome_lt_of_none hq2
      rw [List.length_set] at hlt
      have hd : doneStep st i v =
          { finished := st.finished + 1,
            resolved := st.resolved.set i (some v), outcome := none } := by
        simp only [doneStep]
        rw [List.length_set]
        have hne2 : ¬(st.finished + 1 = st.resolved.length) := by omega
        simp [hout, hne2]
      rw [show applySteps st ((i, v) :: q :: qrest)
            = applySteps (doneStep st i v) (q :: qrest) from rfl, hd]
      have hfin2 : st.finished + 1 = countSome (st.resolved.set i (some v)) := by omega
      have hidx2 : ∀ r ∈ q :: qrest,
          (st.resolved.set i (some v))[r.1]? = some none := by
        intro r hr
        have hri : r.1 ≠ i := by
          intro he
          exact hnodup.1 (by
            rw [← he]
            exact List.mem_map.mpr ⟨r, hr, rfl⟩)
        rw [List.getElem?_set_ne (by omega)]
        exact hidx r (List.mem_cons.mpr (Or.inr hr))
      have hcover2 : ∀ j, (st.resolved.set i (some v))[j]? = some none →
          j ∈ (q :: qrest).map Prod.fst := by
        intro j hj
        have hji : j ≠ i := by
          intro he
          rw [he, hset] at hj
          simp at hj
        have hj2 : st.resolved[j]? = some none := by
          have hne3 : (st.resolved.set i (some v))[j]? = st.resolved[j]? :=
            List.getElem?_set_ne (by omega)
          rw [hne3] at hj
          exact hj
        have hmem := hcover j hj2
        rw [List.map_cons] at hmem
        rcases List.mem_cons.mp hmem with h | h
        · exact absurd h hji
        · exact h
      have ihres := ih
        { finished := st.finished + 1, resolved := st.resolved.set i (some v),
          outcome := none }
        hfin2 rfl hidx2 hnodup.2 hcover2 (by simp)
      rw [ihres]
      simp only [List.length_set]
      rfl

/-- The initial forEach pass is exactly the application of the immediate
resolutions, in item order. -/
theorem promiseInitAux_eq :
    ∀ (items : List PItem) (i : Nat) (st : PromiseRun),
      promiseInitAux items i st = applySteps st (immStepsFrom i items) := by
  intro items
  induction items with
  | nil => intro i st; rfl
  | cons item rest ih =>
    intro i st
    cases item with
    | plain v =>
      simp only [promiseInitAux, immStepsFrom, immVal]
      exact ih (i + 1) (doneStep st i v)
    | spook s =>
      cases hr : s.ready
      · have h1 : promiseInitAux (PItem.spook s :: rest) i st =
            promiseInitAux rest (i + 1) st := by
          simp [promiseInitAux, hr]
        have h2 : immStepsFrom i (PItem.spook s :: rest) =
            immStepsFrom (i + 1) rest := by
          simp [immStepsFrom, immVal, hr]
        rw [h1, h2]
        exact ih (i + 1) st
      · have h1 : promiseInitAux (PItem.spook s :: rest) i st =
            promiseInitAux rest (i + 1) (doneStep st i s.value) := by
          simp [promiseInitAux, hr]
        have h2 : immStepsFrom i (PItem.spook s :: rest) =
            (i, s.value) :: immStepsFrom (i + 1) rest := by
          simp [immStepsFrom, immVal, hr]
        rw [h1, h2]
        exact ih (i + 1) (doneStep st i s.value)
    | future =>
      simp only [promiseInitAux, immStepsFrom, immVal]
      exact ih (i + 1) st

/-- Membership in the immediate-resolution list characterised by the
items: step (j, v) is present exactly when the item at index j minus i
exists and resolves immediately with value v. -/
theorem mem_immStepsFrom :
    ∀ (items : List PItem) (i j : Nat) (v : JsVal),
      (j, v) ∈ immStepsFrom i items ↔
        ∃ k item, items[k]? = some item ∧ immVal item = some v ∧ j = i + k := by
  intro items
  induction items with
  | nil =>
    intro i j v
    simp [immStepsFrom]
  | cons item rest ih =>
    intro i j v
    cases hvi : immVal item with
    | some v0 =>
      simp only [immStepsFrom, hvi, List.mem_cons, ih (i + 1)]
      constructor
      · rintro (he | ⟨k, it, hk, hone, hj⟩)
        · refine ⟨0, item, by simp, ?_, ?_⟩
          · rw [hvi, (Prod.mk.injEq .. ▸ he : j = i ∧ v = v0).2]
          · exact ((Prod.mk.injEq .. ▸ he : j = i ∧ v = v0).1).trans (by omega)
        · exact ⟨k + 1, it, by simpa using hk, hone, by omega⟩
      · rintro ⟨k, it, hk, hone, hj⟩
        cases k with
        | zero =>
          left
          simp only [List.getElem?_cons_zero] at hk
          have hit : item = it := by simpa using hk
          rw [← hit, hvi] at hone
          have hv : v0 = v := by simpa using hone
          have hji : j = i := by omega
          rw [hji, hv]
        | succ k2 =>
          right
          exact ⟨k2, it, by simpa using hk, hone, by omega⟩
    | none =>
      simp only [immStepsFrom, hvi, ih (i + 1)]
      constructor
      · rintro ⟨k, it, hk, hone, hj⟩
        exact ⟨k + 1, it, by simpa using hk, hone, by omega⟩
      · rintro ⟨k, it, hk, hone, hj⟩
        cases k with
        | zero =>
          simp only [List.getElem?_cons_zero] at hk
          have hit : item = it := by simpa using hk
          rw [← hit, hvi] at hone
          exact Option.noConfusion hone
        | succ k2 =>
          exact ⟨k2, it, by simpa using hk, hone, by omega⟩

/-- Indices emitted by the initial pass never go below the start index. -/
theorem immStepsFrom_fst_ge :
    ∀ (items : List PItem) (i : Nat), ∀ p ∈ immStepsFrom i items, i ≤ p.1 := by
  intro items i p hp
  obtain ⟨pi, pv⟩ := p
  obtain ⟨k, it, _, _, hj⟩ := (mem_immStepsFrom items i pi pv).mp hp
  omega

/-- The indices of the initial pass are distinct. -/
theorem immStepsFrom_fst_nodup :
    ∀ (items : List PItem) (i : Nat), ((immStepsFrom i items).map Prod.fst).Nodup := by
  intro items
  induction items with
  | nil => intro i; simp [immStepsFrom]
  | cons item rest ih =>
    intro i
    cases hvi : immVal item with
    | some v0 =>
      simp only [immStepsFrom, hvi, List.map_cons, List.nodup_cons]
      refine ⟨?_, ih (i + 1)⟩
      intro hmem
      obtain ⟨p, hp, hpe⟩ := List.mem_map.mp hmem
      have := immStepsFrom_fst_ge rest (i + 1) p hp
      omega
    | none =>
      simp only [immStepsFrom, hvi]
      exact ih (i + 1)

/-- A replicate of empty slots has no filled slot. -/
theorem countSome_replicate_none (n : Nat) :
    countSome (List.replicate n (none : Option JsVal)) = 0 := by
  induction n with
  | zero => rfl
  | succ m ih => simp [List.replicate, countSome_cons, ih]

/-- Partial runs: done calls on fresh slots that leave at least one slot
unfilled never settle the promise, keep the counter synchronised and
write exactly their slots. -/
theorem applySteps_incomplete :
    ∀ (steps : List (Nat × JsVal)) (st : PromiseRun),
      st.finished = countSome st.resolved →
      st.outcome = none →
      (∀ p ∈ steps, st.resolved[p.1]? = some none) →
      (steps.map Prod.fst).Nodup →
      (∃ j : Nat, st.resolved[j]? = some none ∧ j ∉ steps.map Prod.fst) →
      (applySteps st steps).outcome = none ∧
      (applySteps st steps).finished = countSome (applySteps st steps).resolved ∧
      (applySteps st steps).resolved = writeSteps st.resolved steps := by
  intro steps
  induction steps with
  | nil =>
    intro st hfin hout _ _ _
    exact ⟨hout, hfin, rfl⟩
  | cons p rest ih =>
    intro st hfin hout hidx hnodup hwit
    obtain ⟨i, v⟩ := p
    rw [List.map_cons, List.nodup_cons] at hnodup
    obtain ⟨j, hj, hjn⟩ := hwit
    have hji : j ≠ i := by
      intro he
      exact hjn (by simp [he])
    have hslot : st.resolved[i]? = some none := hidx (i, v) (by simp)
    have hcount := countSome_set_none v hslot
    have hj2 : (st.resolved.set i (some v))[j]? = some none := by
      have hne3 : (st.resolved.set i (some v))[j]? = st.resolved[j]? :=
        List.getElem?_set_ne (by omega)
      rw [hne3]
      exact hj
    have hlt := countSome_lt_of_none hj2
    rw [List.length_set] at hlt
    have hd : doneStep st i v =
        { finished := st.finished + 1,
          resolved := st.resolved.set i (some v), outcome := none } := by
      simp only [doneStep]
      rw [List.length_set]
      have hne2 : ¬(st.finished + 1 = st.resolved.length) := by omega
      simp [hout, hne2]
    rw [show applySteps st ((i, v) :: rest) = applySteps (doneStep st i v) rest from rfl,
      hd]
    have ihres := ih
      { finished := st.finished + 1, resolved := st.resolved.set i (some v),
        outcome := none }
      (show st.finished + 1 = countSome (st.resolved.set i (some v)) by omega) rfl
      (by
        intro r hr
        have hri : r.1 ≠ i := by
          intro he
          exact hnodup.1 (by
            rw [← he]
            exact List.mem_map.mpr ⟨r, hr, rfl⟩)
        show (st.resolved.set i (some v))[r.1]? = some none
        rw [List.getElem?_set_ne (by omega)]
        exact hidx r (List.mem_cons.mpr (Or.inr hr)))
      hnodup.2
      (by
        refine ⟨j, hj2, ?_⟩
        intro hmem
        exact hjn (List.mem_cons.mpr (Or.inr hmem)))
    exact ⟨ihres.1, ihres.2.1, ihres.2.2⟩

/-- C7 counterexample: Spook.promise of the empty list never settles.
The executor initialises finished to 0 and length 0, the forEach body
never runs, and resolve is invoked only from the per-item done callback,
so the claimed immediate completion for the empty list does not happen:
the promise is still pending when the executor returns, and no further
done call can ever arrive. -/
theorem C7_promise_empty_never_settles :
    (promiseInit []).outcome = none ∧ (promiseInit []).finished = 0 ∧
      (promiseInit []).resolved = [] := by
  decide

/-- C7 amended: for every nonempty ordered list of items, the bridged
future completes, with the ordered list of resolved values, exactly once
every item has resolved: it is still unsettled while any pending item
remains, it settles on the last resolution with slot j holding the value
of item j, and it becomes permanently rejected once any contained future
rejects.  (For the empty list the future never settles.)  steps lists
the later resolutions of the pending items, each exactly once. -/
theorem C7_promise_bridge (items : List PItem) (steps : List (Nat × JsVal))
    (hitems : items ≠ [])
    (hpend : ∀ p ∈ steps, ∃ it, items[p.1]? = some it ∧ immVal it = none)
    (hnodup : (steps.map Prod.fst).Nodup)
    (hcover : ∀ (j : Nat) (it : PItem), items[j]? = some it → immVal it = none →
      j ∈ steps.map Prod.fst) :
    (applySteps (promiseInit items) steps).outcome =
      some (.resolvedWith (writeSteps (List.replicate items.length none)
        (immSteps items ++ steps))) ∧
    (applySteps (promiseInit items) steps).finished = items.length ∧
    (∀ (j : Nat) (it : PItem) (v : JsVal), items[j]? = some it → immVal it = some v →
      (writeSteps (List.replicate items.length none)
        (immSteps items ++ steps))[j]? = some (some v)) ∧
    (∀ (j : Nat) (v : JsVal), (j, v) ∈ steps →
      (writeSteps (List.replicate items.length none)
        (immSteps items ++ steps))[j]? = some (some v)) ∧
    (steps ≠ [] → (promiseInit items).outcome = none) ∧
    (∀ st2 : PromiseRun, st2.outcome = none →
      ∀ more, (applySteps (rejectStep st2) more).outcome = some .rejected) := by
  have hlen : (List.replicate items.length (none : Option JsVal)).length =
      items.length := List.length_replicate ..
  have hA : promiseInit items =
      applySteps
        { finished := 0, resolved := List.replicate items.length none,
          outcome := none } (immSteps items) :=
    promiseInitAux_eq items 0 _
  have hB : applySteps (promiseInit items) steps =
      applySteps
        { finished := 0, resolved := List.replicate items.length none,
          outcome := none } (immSteps items ++ steps) := by
    rw [hA]
    simp [applySteps, List.foldl_append]
  have hfin0 : (0 : Nat) = countSome (List.replicate items.length none) :=
    (countSome_replicate_none items.length).symm
  have hidx0 : ∀ p ∈ immSteps items ++ steps,
      (List.replicate items.length (none : Option JsVal))[p.1]? = some none := by
    intro p hp
    rcases List.mem_append.mp hp with h | h
    · obtain ⟨pi, pv⟩ := p
      obtain ⟨k, it, hk, _, hj⟩ := (mem_immStepsFrom items 0 pi pv).mp h
      have hkl : k < items.length := (List.getElem?_eq_some_iff.mp hk).1
      rw [List.getElem?_replicate]
      simp only
      rw [if_pos (by omega)]
    · obtain ⟨it, hit, _⟩ := hpend p h
      have hkl : p.1 < items.length := (List.getElem?_eq_some_iff.mp hit).1
      rw [List.getElem?_replicate, if_pos hkl]
  have hdisj : ∀ a, a ∈ (immSteps items).map Prod.fst →
      a ∈ steps.map Prod.fst → False := by
    intro a ha hb
    obtain ⟨p, hp, hpe⟩ := List.mem_map.mp ha
    obtain ⟨q, hq, hqe⟩ := List.mem_map.mp hb
    obtain ⟨pi, pv⟩ := p
    obtain ⟨k, it, hk, hone, hj⟩ := (mem_immStepsFrom items 0 pi pv).mp hp
    obtain ⟨it2, hit2, hnone⟩ := hpend q hq
    have hkk : q.1 = k := by
      simp only at hpe hqe
      omega
    rw [hkk, hk] at hit2
    have : it = it2 := by simpa using hit2
    rw [← this, hone] at hnone
    exact Option.noConfusion hnone
  have hnodup0 : ((immSteps items ++ steps).map Prod.fst).Nodup := by
    rw [List.map_append]
    refine List.Nodup.append (immStepsFrom_fst_nodup items 0) hnodup ?_
    intro a ha hb
    exact hdisj a ha hb
  have hcover0 : ∀ j : Nat,
      (List.replicate items.length (none : Option JsVal))[j]? = some none →
      j ∈ (immSteps items ++ steps).map Prod.fst := by
    intro j hj
    have hjl : j < items.length := by
      rw [List.getElem?_replicate] at hj
      by_contra hge
      rw [if_neg (by omega)] at hj
      exact Option.noConfusion hj
    obtain ⟨it, hit⟩ : ∃ it, items[j]? = some it :=
      ⟨items[j], List.getElem?_eq_getElem hjl⟩
    rw [List.map_append]
    cases hv : immVal it with
    | some v =>
      refine List.mem_append.mpr (Or.inl ?_)
      exact List.mem_map.mpr
        ⟨(j, v), (mem_immStepsFrom items 0 j v).mpr ⟨j, it, hit, hv, by omega⟩, rfl⟩
    | none =>
      exact List.mem_append.mpr (Or.inr (hcover j it hit hv))
  have hne0 : immSteps items ++ steps ≠ [] := by
    intro hemp
    obtain ⟨himm, hsteps⟩ := List.append_eq_nil.mp hemp
    cases hx : items with
    | nil => exact hitems hx
    | cons it0 rest =>
      have hit0 : items[0]? = some it0 := by rw [hx]; simp
      cases hv : immVal it0 with
      | some v =>
        have : (0, v) ∈ immSteps items :=
          (mem_immStepsFrom items 0 0 v).mpr ⟨0, it0, hit0, hv, by omega⟩
        rw [himm] at this
        simp at this
      | none =>
        have := hcover 0 it0 hit0 hv
        rw [hsteps] at this
        simp at this
  have hmain := applySteps_completes (immSteps items ++ steps)
    { finished := 0, resolved := List.replicate items.length none, outcome := none }
    hfin0 rfl hidx0 hnodup0 hcover0 hne0
  refine ⟨?_, ?_, ?_, ?_, ?_, ?_⟩
  · rw [hB, hmain]
  · rw [hB, hmain]
    simpa using hlen
  · intro j it v hit hv
    have hjl : j < items.length := (List.getElem?_eq_some_iff.mp hit).1
    exact writeSteps_getElem_of_mem hnodup0
      (List.mem_append.mpr (Or.inl
        ((mem_immStepsFrom items 0 j v).mpr ⟨j, it, hit, hv, by omega⟩)))
      _ (by omega)
  · intro j v hjv
    obtain ⟨it, hit, _⟩ := hpend (j, v) hjv
    have hjl : j < items.length := (List.getElem?_eq_some_iff.mp hit).1
    exact writeSteps_getElem_of_mem hnodup0
      (List.mem_append.mpr (Or.inr hjv)) _ (by omega)
  · intro hsne
    rw [hA]
    refine (applySteps_incomplete (immSteps items)
      { finished := 0, resolved := List.replicate items.length none, outcome := none }
      hfin0 rfl
      (fun p hp => hidx0 p (List.mem_append.mpr (Or.inl hp)))
      (immStepsFrom_fst_nodup items 0) ?_).1
    cases hs : steps with
    | nil => exact absurd hs hsne
    | cons q qrest =>
      obtain ⟨it, hit, _⟩ := hpend q (by rw [hs]; simp)
      have hql : q.1 < items.length := (List.getElem?_eq_some_iff.mp hit).1
      refine ⟨q.1, by rw [List.getElem?_replicate, if_pos hql], ?_⟩
      intro hmem
      exact hdisj q.1 hmem (by
        rw [hs]
        exact List.mem_map.mpr ⟨q, by simp, rfl⟩)
  · intro st2 h2 more
    exact applySteps_settled more _ (by simp [rejectStep, h2])

/-- Witness for C7 at a three-item list: a plain value, a ready cell and
a pending cell; the pending cell resolves later with 3, completing the
future with the ordered values, and the future was unsettled before. -/
theorem C7_promise_bridge_witness :
    (applySteps
        (promiseInit [.plain (.num 1), .spook { ready := true, value := .num 2 },
          .spook { }]) [(2, .num 3)]).outcome =
      some (.resolvedWith [some (.num 1), some (.num 2), some (.num 3)]) ∧
    (promiseInit [.plain (.num 1), .spook { ready := true, value := .num 2 },
      .spook { }]).outcome = none := by
  have h := C7_promise_bridge
    [.plain (.num 1), .spook { ready := true, value := .num 2 }, .spook { }]
    [(2, .num 3)]
    (by decide)
    (by
      intro p hp
      rw [List.mem_singleton] at hp
      subst hp
      exact ⟨.spook { }, by decide, by decide⟩)
    (by decide)
    (by
      intro j it hit hv
      have hj : j < 3 := by
        have := (List.getElem?_eq_some_iff.mp hit).1
        simpa using this
      interval_cases j
      · simp at hit
        subst hit
        simp [immVal] at hv
      · simp at hit
        subst hit
        simp [immVal] at hv
      · simp)
  refine ⟨?_, h.2.2.2.2.1 (by decide)⟩
  rw [h.1]
  decide

/-- C5 counterexample: use() immediately followed by drop() is not a
no-op for a cache-identified cell when the shared cache is installed.
On a fresh cell with uuid u, zero users, and a persisted value 42 in
shared storage, the pair restores the value (the cell becomes ready),
claims the storage owner key, and leaves a cold cache registration
behind, none of which existed before. -/
theorem C5_use_drop_not_noop :
    (((wUse jsonStringifyOrNull intParse 6 exampleWorld 0).bind
        (fun w1 => wDrop w1 0)).map
      (fun w2 => ((getSpook w2 0).ready, (getSpook w2 0).value,
        decide (w2.regs ≠ []), alget w2.storage (ownerKey "u")))) =
      some (true, .num 42, true, some "aabbccdd") ∧
    (getSpook exampleWorld 0).ready = false ∧
    exampleWorld.regs = [] := by
  decide

/-- C5 amended: use() immediately followed by drop() is a no-op on the
whole observable cell state (readiness, value, user count, observer maps,
one-shot queue) for every cell on the local lifecycle path: no truthy
cache identity, or caching suppressed, or no shared cache installed.
The initialise hook fires on 0 to 1 and the finalise hook on 1 to 0, so
base cells hold no residual resources.  (With a cache identity and an
installed cache the pair can restore a persisted value and retains a
cold registration and the storage owner key, as the counterexample
shows.) -/
theorem C5_use_drop_noop (cp : Bool) (s : Spook)
    (h : localLifecycle cp s = true) :
    dropOp cp (useOp cp s).1 =
      ⟨s, .dropCall :: (if s.users = 0 then [Event.finaliseHook] else []), none⟩ := by
  have h1 : ¬(s.users + 1 = 0) := by omega
  by_cases hz : s.users = 0
  · simp only [useOp, dropOp]
    rw [if_neg (by simpa using h1)]
    simp only [Nat.add_sub_cancel]
    rw [if_pos (by simpa using hz)]
    rw [if_pos (by simpa [localLifecycle] using h)]
    simp only [hz, if_true]
    rw [← hz]
  · simp only [useOp, dropOp]
    rw [if_neg (by simpa using h1)]
    simp only [Nat.add_sub_cancel]
    rw [if_neg (by simpa using hz)]
    simp [hz]

/-- Witness for C5 amended at a concrete cache-free cell with one user. -/
theorem C5_use_drop_noop_witness :
    dropOp true (useOp true { users := 1, ready := true, value := .num 5, subscribers := [3] }).1 =
      ⟨{ users := 1, ready := true, value := .num 5, subscribers := [3] },
        [.dropCall], none⟩ := by
  have h := C5_use_drop_noop true
    { users := 1, ready := true, value := .num 5, subscribers := [3] } (by decide)
  simpa using h

/- Lemmas for the shared-cache storage layout and the session id. -/

theorem alget_alset_self {α : Type} :
    ∀ (l : List (String × α)) (k : String) (v : α), alget (alset l k v) k = some v := by
  intro l
  induction l with
  | nil => intro k v; simp [alset, alget]
  | cons p rest ih =>
    intro k v
    obtain ⟨pk, pv⟩ := p
    by_cases hk : pk = k
    · simp [alset, alget, hk]
    · simp [alset, alget, hk, ih]

theorem hexDigits_pos (n : Nat) (h : 0 < n) :
    hexDigits n = hexDigits (n / 16) ++ [hexDigitChar (n % 16)] := by
  cases n with
  | zero => omega
  | succ m => simp [hexDigits]

theorem hexDigits_length :
    ∀ (k n : Nat), 16 ^ k ≤ n → n < 16 ^ (k + 1) → (hexDigits n).length = k + 1 := by
  intro k
  induction k with
  | zero =>
    intro n h1 h2
    norm_num at h1 h2
    rw [hexDigits_pos n (by omega)]
    have hq : n / 16 = 0 := Nat.div_eq_of_lt (by omega)
    rw [hq]
    simp [hexDigits]
  | succ k2 ih =>
    intro n h1 h2
    have h16 : (0 : Nat) < 16 := by norm_num
    have hpos : 0 < n := lt_of_lt_of_le (by positivity) h1
    rw [hexDigits_pos n hpos]
    have hd1 : 16 ^ k2 ≤ n / 16 := by
      rw [Nat.le_div_iff_mul_le h16]
      calc 16 ^ k2 * 16 = 16 ^ (k2 + 1) := by ring
        _ ≤ n := h1
    have hd2 : n / 16 < 16 ^ (k2 + 1) := by
      rw [Nat.div_lt_iff_lt_mul h16]
      calc n < 16 ^ (k2 + 2) := h2
        _ = 16 ^ (k2 + 1) * 16 := by ring
    rw [List.length_append, ih (n / 16) hd1 hd2]
    simp

theorem hexDigitChar_mem (m : Nat) (h : m < 16) :
    hexDigitChar m ∈ "0123456789abcdef".toList := by
  interval_cases m <;> decide

theorem hexDigits_chars :
    ∀ n : Nat, ∀ c ∈ hexDigits n, c ∈ "0123456789abcdef".toList := by
  intro n
  induction n using Nat.strong_induction_on with
  | _ n ih =>
    intro c hc
    rcases Nat.eq_zero_or_pos n with h0 | hpos
    · subst h0
      simp [hexDigits] at hc
    · rw [hexDigits_pos n hpos] at hc
      rcases List.mem_append.mp hc with h | h
      · exact ih (n / 16) (Nat.div_lt_self hpos (by norm_num)) c h
      · rw [List.mem_singleton] at h
        subst h
        exact hexDigitChar_mem _ (Nat.mod_lt _ (by norm_num))

/-- C8 counterexample: the shared cache does not use the storage keys
value.u and owner.u.  Publishing value 7 for uuid u in an owned world
writes the serialised value under the key with the literal dollar-prefix
and a dot, and leaves value.u absent; claiming ownership writes the
session id under the caret-prefixed key, and owner.u stays absent. -/
theorem C8_storage_keys_counterexample :
    (cacheChangedW jsonStringifyOrNull intParse 3 exampleWorldOwned "u"
        (.num 7)).map
      (fun w => (alget w.storage "value.u", alget w.storage "$_Spooks.u")) =
      some (none, some "7") ∧
    (ensureActiveW exampleWorldUnowned "u" (ownerKey "u")).storage =
      [("$_Spooks^u", "aabbccdd")] ∧
    alget (ensureActiveW exampleWorldUnowned "u" (ownerKey "u")).storage
      "owner.u" = none := by
  decide

/-- C8 amended: the last-known value is stored under the storage key
with literal prefix $_Spooks followed by a dot and the uuid, and the
owner session id under the key with the same prefix followed by a caret
and the uuid (not value.uuid and owner.uuid as claimed); the session id
written is an 8-character lowercase hex string freshly derived at cache
construction from the floored random product, which ranges over
[2 to the 32, 2 to the 33). -/
theorem C8_storage_layout
    (sf : JsVal → String) (pf : String → JsVal) (fuel : Nat) (w : CWorld)
    (uuid : String) (v : JsVal) (item : CacheReg)
    (hreg : alget w.regs uuid = some item) (hu : item.users = [])
    (hown : alget w.storage (ownerKey uuid) = some w.sessionId)
    (hv : v ≠ .undef)
    (w2 : CWorld) (item2 : CacheReg)
    (hreg2 : alget w2.regs uuid = some item2)
    (hu2 : item2.users ≠ []) (hprim2 : item2.primary = none)
    (hdef2 : item2.deferred = false) (hpfx2 : w2.deferParentPrefix = none)
    (habs2 : alget w2.storage (ownerKey uuid) = none)
    (n : Nat) (hn1 : 2 ^ 32 ≤ n) (hn2 : n < 2 ^ 33) :
    cacheChangedW sf pf (fuel + 2) w uuid v =
      some { w with storage := alset w.storage (valueKey uuid) (sf v) } ∧
    valueKey uuid = "$_Spooks." ++ uuid ∧
    (ensureActiveW w2 uuid (ownerKey uuid)).storage =
      alset w2.storage (ownerKey uuid) w2.sessionId ∧
    alget (ensureActiveW w2 uuid (ownerKey uuid)).storage (ownerKey uuid) =
      some w2.sessionId ∧
    ownerKey uuid = "$_Spooks^" ++ uuid ∧
    (sessionIdOf n).length = 8 ∧
    (∀ c ∈ (sessionIdOf n).data, c ∈ "0123456789abcdef".toList) := by
  have hpos : 0 < n := by
    have : (0 : Nat) < 2 ^ 32 := by norm_num
    omega
  have hlen9 : (hexDigits n).length = 9 := by
    refine hexDigits_length 8 n ?_ ?_
    · calc (16 : Nat) ^ 8 = 2 ^ 32 := by norm_num
        _ ≤ n := hn1
    · calc n < 2 ^ 33 := hn2
        _ < 16 ^ 9 := by norm_num
  have hses : sessionIdOf n = ⟨(hexDigits n).drop 1⟩ := by
    simp only [sessionIdOf, jsToString16List]
    rw [if_neg (by omega)]
  have hchanged : cacheChangedW sf pf (fuel + 2) w uuid v =
      some { w with storage := alset w.storage (valueKey uuid) (sf v) } := by
    rw [show fuel + 2 = (fuel + 1) + 1 from rfl]
    simp only [cacheChangedW, hreg, hown, hu]
    rw [if_pos trivial, if_neg hv]
    simp [usersChangedLoop]
  have hensure : (ensureActiveW w2 uuid (ownerKey uuid)).storage =
        alset w2.storage (ownerKey uuid) w2.sessionId ∧
      alget (ensureActiveW w2 uuid (ownerKey uuid)).storage (ownerKey uuid) =
        some w2.sessionId := by
    have hl : 0 < item2.users.length := List.length_pos.mpr hu2
    obtain ⟨pid, hpid⟩ : ∃ pid, item2.users.getLast? = some pid := by
      cases hx : item2.users.getLast? with
      | none => exact absurd (List.getLast?_eq_none_iff.mp hx) hu2
      | some y => exact ⟨y, rfl⟩
    have hg : alget (alset w2.storage (ownerKey uuid) w2.sessionId)
        (ownerKey uuid) = some w2.sessionId := alget_alset_self ..
    simp only [ensureActiveW, hreg2, hprim2, hdef2, hpfx2, habs2, hpid, hg,
      strFalsy]
    simp [hl, hg, hprim2, hdef2, hpfx2, habs2, hpid, strFalsy]
  refine ⟨hchanged, rfl, hensure.1, hensure.2, rfl, ?_, ?_⟩
  · rw [hses]
    show ((hexDigits n).drop 1).length = 8
    rw [List.length_drop, hlen9]
  · intro c hc
    rw [hses] at hc
    have : c ∈ hexDigits n := List.mem_of_mem_drop hc
    exact hexDigits_chars n c this

/-- Witness for C8 at the concrete owned and unowned worlds and the
smallest session random product. -/
theorem C8_storage_layout_witness :
    cacheChangedW jsonStringifyOrNull intParse 2 exampleWorldOwned "u" (.num 7) =
      some { exampleWorldOwned with
             storage := alset exampleWorldOwned.storage (valueKey "u")
               (jsonStringifyOrNull (.num 7)) } ∧
    (ensureActiveW exampleWorldUnowned "u" (ownerKey "u")).storage =
      alset exampleWorldUnowned.storage (ownerKey "u")
        exampleWorldUnowned.sessionId ∧
    (sessionIdOf (2 ^ 32)).length = 8 := by
  have h := C8_storage_layout jsonStringifyOrNull intParse 0 exampleWorldOwned
    "u" (.num 7) { users := [] } (by decide) rfl (by decide) (by decide)
    exampleWorldUnowned { users := [0] } (by decide) (by decide) rfl rfl rfl
    (by decide) (2 ^ 32) (by norm_num) (by norm_num)
  exact ⟨h.1, h.2.2.1, h.2.2.2.2.2.1⟩

/- Lemmas for the latch world. -/

/-- Target-trace events that do not name the latch registration leave the
world untouched and are logged as third-party target events. -/
theorem runTargetTrace_skip (cp : Bool) :
    ∀ (evs : List Event) (w : LWorld),
      (∀ tok : Nat, Event.notifyCb tok ∈ evs → w.latch.notifyId ≠ some tok) →
      runTargetTrace cp w evs = (w, evs.map LEvent.onTarget, none) := by
  intro evs
  induction evs with
  | nil => intro w _; rfl
  | cons e rest ih =>
    intro w h
    have hrest : ∀ tok : Nat, Event.notifyCb tok ∈ rest →
        w.latch.notifyId ≠ some tok :=
      fun tok ht => h tok (List.mem_cons.mpr (Or.inr ht))
    cases e with
    | notifyCb tok =>
      have hne := h tok (List.mem_cons.mpr (Or.inl rfl))
      simp only [runTargetTrace]
      rw [if_neg hne]
      simp [ih w hrest]
    | subCb tok v => simp [runTargetTrace, ih w hrest]
    | thenCb tok v => simp [runTargetTrace, ih w hrest]
    | thenNow v => simp [runTargetTrace, ih w hrest]
    | dropCall => simp [runTargetTrace, ih w hrest]
    | initialiseHook => simp [runTargetTrace, ih w hrest]
    | finaliseHook => simp [runTargetTrace, ih w hrest]
    | cacheInit u => simp [runTargetTrace, ih w hrest]
    | cacheFin u => simp [runTargetTrace, ih w hrest]
    | cachePub u v => simp [runTargetTrace, ih w hrest]
    | warn m => simp [runTargetTrace, ih w hrest]
    | doneCb v => simp [runTargetTrace, ih w hrest]

/-- A prefix of third-party events passes through the interpretation. -/
theorem runTargetTrace_append (cp : Bool) :
    ∀ (l1 l2 : List Event) (w : LWorld),
      (∀ tok : Nat, Event.notifyCb tok ∈ l1 → w.latch.notifyId ≠ some tok) →
      runTargetTrace cp w (l1 ++ l2) =
        ((runTargetTrace cp w l2).1,
          l1.map LEvent.onTarget ++ (runTargetTrace cp w l2).2.1,
          (runTargetTrace cp w l2).2.2) := by
  intro l1
  induction l1 with
  | nil => intro l2 w _; simp
  | cons e rest ih =>
    intro l2 w h
    have hrest : ∀ tok : Nat, Event.notifyCb tok ∈ rest →
        w.latch.notifyId ≠ some tok :=
      fun tok ht => h tok (List.mem_cons.mpr (Or.inr ht))
    have hr := ih l2 w hrest
    cases e with
    | notifyCb tok =>
      have hne := h tok (List.mem_cons.mpr (Or.inl rfl))
      show runTargetTrace cp w (Event.notifyCb tok :: (rest ++ l2)) = _
      simp only [runTargetTrace]
      rw [if_neg hne]
      simp [hr]
    | subCb tok v => simp [runTargetTrace, hr]
    | thenCb tok v => simp [runTargetTrace, hr]
    | thenNow v => simp [runTargetTrace, hr]
    | dropCall => simp [runTargetTrace, hr]
    | initialiseHook => simp [runTargetTrace, hr]
    | finaliseHook => simp [runTargetTrace, hr]
    | cacheInit u => simp [runTargetTrace, hr]
    | cacheFin u => simp [runTargetTrace, hr]
    | cachePub u v => simp [runTargetTrace, hr]
    | warn m => simp [runTargetTrace, hr]
    | doneCb v => simp [runTargetTrace, hr]

/-- The latch constructor with a supplied default: ready at once with the
default, may-be-null inherited from the target. -/
theorem mkLatchSpook_default (A : Spook) (d : JsVal) (hd : d ≠ .undef) :
    mkLatchSpook A d none none =
      { base := { mayBeNull := A.mayBeNull, ready := true, value := d } } := by
  simp only [mkLatchSpook]
  rw [if_pos hd]
  simp [Option.getD]

/-- notify() on a cache-free, not-ready target: register a fresh token
without invoking the callback. -/
theorem notifyOp_not_ready (A : Spook) (hA1 : A.ready = false)
    (hA4 : A.uuid = none) :
    notifyOp true A =
      ({ A with notifies := A.notifies ++ [A.nextId], users := A.users + 1,
                nextId := A.nextId + 1 },
       A.nextId,
       if A.users = 0 then [Event.initialiseHook] else []) := by
  have hll : localLifecycle true A = true := by
    simp [localLifecycle, hA4, uuidTruthy]
  simp only [notifyOp, useOp, hll]
  rw [if_neg (by simp [hA1])]
  simp

/-- tie() on a fresh latch over a not-ready, cache-free target: the latch
initialises (registering its poll on the target), the subscriber is
registered under token 0 and invoked at once with the default. -/
theorem lwTie_spec (A : Spook) (d : JsVal)
    (hA1 : A.ready = false) (hA4 : A.uuid = none) (hd : d ≠ .undef) :
    lwTie true ⟨A, mkLatchSpook A d none none⟩ =
      (⟨{ A with notifies := A.notifies ++ [A.nextId], users := A.users + 1,
                 nextId := A.nextId + 1 },
         { base := { subscribers := [0], ready := true, value := d,
                     mayBeNull := A.mayBeNull, users := 1, nextId := 1 },
           hasPoll := true, notifyId := some A.nextId, hasTarget := true }⟩,
       0,
       (if A.users = 0 then [Event.initialiseHook] else []).map LEvent.onTarget
         ++ [LEvent.onLatch (.subCb 0 d)],
       none) := by
  have hmk := mkLatchSpook_default A d hd
  have hn := notifyOp_not_ready A hA1 hA4
  have hinit : latchInitialiseW true ⟨A, mkLatchSpook A d none none⟩ =
      (⟨{ A with notifies := A.notifies ++ [A.nextId], users := A.users + 1,
                 nextId := A.nextId + 1 },
         { base := { mayBeNull := A.mayBeNull, ready := true, value := d },
           hasPoll := true, notifyId := some A.nextId, hasTarget := true }⟩,
       (if A.users = 0 then [Event.initialiseHook] else []).map LEvent.onTarget,
       none) := by
    rw [hmk]
    simp [latchInitialiseW, hn, pollW, hA1]
  rw [hmk] at hinit
  simp [lwTie, hmk, hinit, localLifecycle, uuidTruthy]

/-- First readiness of the target after the latch is tied: the latch
adopts the new value (its subscriber fires with it) and detaches from
the target permanently, unregistering its notifier and releasing its
use of the target. -/
theorem lwAdopt_spec (A : Spook) (d v1 : JsVal)
    (hA2 : A.triggering = none) (hA3 : A.thens = [])
    (hA4 : A.uuid = none) (hA5 : ∀ t ∈ A.notifies, t < A.nextId)
    (hA6 : A.mayBeNull = true)
    (hv1 : v1 ≠ .undef) (hne : equivalent v1 d = false) :
    lwTargetTrigger true
      ⟨{ A with notifies := A.notifies ++ [A.nextId], users := A.users + 1,
                nextId := A.nextId + 1 },
       { base := { subscribers := [0], ready := true, value := d,
                   mayBeNull := A.mayBeNull, users := 1, nextId := 1 },
         hasPoll := true, notifyId := some A.nextId, hasTarget := true }⟩ v1 =
      (⟨{ A with ready := true, value := v1, thens := [], triggering := none,
                 nextId := A.nextId + 1 },
        { base := { subscribers := [0], ready := true, value := v1,
                    mayBeNull := A.mayBeNull, users := 1, nextId := 1 },
          hasPoll := false, notifyId := some A.nextId, hasTarget := false }⟩,
       A.notifies.map (fun t => LEvent.onTarget (Event.notifyCb t))
         ++ LEvent.onTarget (.notifyCb A.nextId) :: LEvent.onLatch (.subCb 0 v1)
           :: (Event.dropCall ::
              (if A.users = 0 then [Event.finaliseHook] else [])).map LEvent.onTarget
         ++ A.subscribers.map (fun t => LEvent.onTarget (.subCb t v1)),
       none) := by
  have hnm : A.nextId ∉ A.notifies := fun h => absurd (hA5 A.nextId h) (lt_irrefl _)
  -- the target trigger
  have htrig := triggerOp_spec true
    { A with notifies := A.notifies ++ [A.nextId], users := A.users + 1,
             nextId := A.nextId + 1 } v1
    hA2 hv1 (by simp [hA6]) (by simp [hA3])
  simp [hA3, hA4, uuidTruthy] at htrig
  -- the latch trigger inside the poll
  have hlat := triggerOp_spec true
    { subscribers := [0], ready := true, value := d,
      mayBeNull := A.mayBeNull, users := 1, nextId := 1 } v1
    rfl hv1 (by simp [hA6]) (by simp)
  simp [uuidTruthy] at hlat
  -- the poll run
  have hchg : changedOp true
      ({ subscribers := [0], ready := true, value := d,
         mayBeNull := A.mayBeNull, users := 1, nextId := 1 } : Spook) v1 =
      triggerOp true
        { subscribers := [0], ready := true, value := d,
          mayBeNull := A.mayBeNull, users := 1, nextId := 1 } v1 := by
    simp only [changedOp, if_neg hv1]
    rw [if_neg (by simp [hA6])]
    rw [if_pos (Or.inr (by simpa using hne))]
  have herase : (A.notifies ++ [A.nextId]).erase A.nextId = A.notifies := by
    rw [List.erase_append_right _ hnm]
    simp
  have hdrop : ∀ s : Spook, s.users = A.users + 1 → s.uuid = none →
      dropOp true s = ⟨{ s with users := A.users },
        .dropCall :: (if A.users = 0 then [Event.finaliseHook] else []), none⟩ := by
    intro s hsu hsid
    by_cases hz : A.users = 0
    · simp [dropOp, hsu, hz, localLifecycle, uuidTruthy, hsid]
    · simp [dropOp, hsu, hz, localLifecycle, uuidTruthy, hsid]
  have hpoll : pollW true
      ⟨{ A with notifies := A.notifies ++ [A.nextId], users := A.users + 1,
                nextId := A.nextId + 1, ready := true, value := v1, thens := [],
                triggering := none },
       { base := { subscribers := [0], ready := true, value := d,
                   mayBeNull := A.mayBeNull, users := 1, nextId := 1 },
         hasPoll := true, notifyId := some A.nextId, hasTarget := true }⟩ =
      (⟨{ A with ready := true, value := v1, thens := [], triggering := none,
                 nextId := A.nextId + 1 },
        { base := { subscribers := [0], ready := true, value := v1,
                    mayBeNull := A.mayBeNull, users := 1, nextId := 1 },
          hasPoll := false, notifyId := some A.nextId, hasTarget := false }⟩,
       LEvent.onLatch (.subCb 0 v1)
         :: (Event.dropCall ::
            (if A.users = 0 then [Event.finaliseHook] else [])).map LEvent.onTarget,
       none) := by
    have hd2 := hdrop
      { subscribers := A.subscribers, thens := [], notifies := A.notifies,
        ready := true, value := v1, triggering := none, mayBeNull := A.mayBeNull,
        users := A.users + 1, uuid := A.uuid, noCache := A.noCache,
        defaultTo := A.defaultTo, nextId := A.nextId + 1 } rfl hA4
    simp only [pollW]
    simp [hchg, hlat, unnotifyOp, herase, hd2, hnm]
  rw [hA4] at hpoll
  have hskip2 := runTargetTrace_skip true
    (A.subscribers.map (fun t => Event.subCb t v1))
    ⟨{ A with ready := true, value := v1, thens := [], triggering := none,
              nextId := A.nextId + 1, uuid := none },
     { base := { subscribers := [0], ready := true, value := v1,
                 mayBeNull := A.mayBeNull, users := 1, nextId := 1 },
       hasPoll := false, notifyId := some A.nextId, hasTarget := false }⟩
    (by
      intro tok htok
      obtain ⟨t, ht, hte⟩ := List.mem_map.mp htok
      exact absurd hte (by simp))
  have happ := runTargetTrace_append true (A.notifies.map Event.notifyCb)
    (Event.notifyCb A.nextId :: A.subscribers.map (fun t => Event.subCb t v1))
    ⟨{ A with notifies := A.notifies ++ [A.nextId], users := A.users + 1,
              nextId := A.nextId + 1, ready := true, value := v1, thens := [],
              triggering := none, uuid := none },
     { base := { subscribers := [0], ready := true, value := d,
                 mayBeNull := A.mayBeNull, users := 1, nextId := 1 },
       hasPoll := true, notifyId := some A.nextId, hasTarget := true }⟩
    (by
      intro tok htok hsome
      obtain ⟨t, ht, hte⟩ := List.mem_map.mp htok
      have hteq : t = tok := by
        injection hte
      subst hteq
      have hlt := hA5 t ht
      simp only [Option.some.injEq] at hsome
      omega)
  simp only [lwTargetTrigger]
  simp only [hA3, hA4]
  rw [htrig]
  simp only [runTargetTrace, happ, hpoll, hskip2]
  simp [Function.comp_def, hskip2]

/-- trigger() on an idle cell whose one-shot queue is empty: no drop is
performed, so the user count is untouched and may be anything, including
zero. -/
theorem triggerOp_no_thens (cp : Bool) (s : Spook) (v : JsVal)
    (ht : s.triggering = none) (hv : v ≠ .undef)
    (hn : ¬(s.mayBeNull = false ∧ v = .null)) (hth : s.thens = []) :
    triggerOp cp s v =
      ⟨{ s with ready := true, value := v, thens := [], triggering := none },
        s.notifies.map Event.notifyCb
          ++ s.subscribers.map (fun t => Event.subCb t v)
          ++ (if uuidTruthy s.uuid && !s.noCache && cp
              then [Event.cachePub (s.uuid.getD "") v] else []),
        none⟩ := by
  have hd : drainThens cp
      { s with triggering := some v, ready := true, value := v } s.thens =
      ({ s with triggering := some v, ready := true, value := v }, [], none) := by
    simp [hth, drainThens]
  simp only [triggerOp, triggerF, if_neg hv]
  rw [if_neg (by simp [ht])]
  rw [if_neg hn]
  simp only [hd, triggerFinish]
  split <;> simp [hth]

/-- Once the latch has detached from its target (hasTarget is false and
the registered notifier token is gone from the target), a later trigger
of the target leaves the latch component exactly unchanged and produces
only target-side events. -/
theorem lwDetached_spec (T : Spook) (L : LatchSt) (v2 : JsVal)
    (hT1 : T.triggering = none) (hT2 : T.thens = [])
    (hT3 : T.uuid = none)
    (hT4 : ∀ t ∈ T.notifies, L.notifyId ≠ some t)
    (hT5 : ¬(T.mayBeNull = false ∧ v2 = .null))
    (hv2 : v2 ≠ .undef) :
    lwTargetTrigger true ⟨T, L⟩ v2 =
      (⟨{ T with ready := true, value := v2, thens := [], triggering := none },
        L⟩,
       (T.notifies.map Event.notifyCb
          ++ T.subscribers.map (fun t => Event.subCb t v2)).map LEvent.onTarget,
       none) := by
  have htrig := triggerOp_no_thens true T v2 hT1 hv2 hT5 hT2
  simp [hT3, uuidTruthy] at htrig
  have hskip := runTargetTrace_skip true
    (T.notifies.map Event.notifyCb
      ++ T.subscribers.map (fun t => Event.subCb t v2))
    ⟨{ T with ready := true, value := v2, thens := [], triggering := none }, L⟩
    (by
      intro tok htok
      rcases List.mem_append.mp htok with h1 | h1
      · obtain ⟨t, ht, hte⟩ := List.mem_map.mp h1
        have hteq : t = tok := by
          injection hte
        subst hteq
        exact hT4 t ht
      · obtain ⟨t, ht, hte⟩ := List.mem_map.mp h1
        exact absurd hte (by simp))
  rw [hT3] at hskip
  simp only [lwTargetTrigger]
  rw [htrig]
  simp [Function.comp_def, hT3, hskip]

/-- C6: for a latch cell wrapping input cell A with default d: tie()
presents d at once (the latch is ready with value d and the new
subscriber is invoked with d) while A has never been ready; at the first
instant A becomes ready (trigger with v1) the latch adopts v1 - its
subscriber is invoked with v1 - and detaches from A; for every later
change of A (trigger with a new value v2) the latch state is exactly
unchanged and no latch-side event occurs at all, so its subscribers are
never invoked again. -/
theorem C6_latch_adopts_and_detaches (A : Spook) (d v1 v2 : JsVal)
    (hA1 : A.ready = false) (hA2 : A.triggering = none) (hA3 : A.thens = [])
    (hA4 : A.uuid = none) (hA5 : ∀ t ∈ A.notifies, t < A.nextId)
    (hA6 : A.mayBeNull = true) (hd : d ≠ .undef) (hv1 : v1 ≠ .undef)
    (hv2 : v2 ≠ .undef) (hne : equivalent v1 d = false) :
    (lwTie true ⟨A, mkLatchSpook A d none none⟩).1.latch.base.value = d ∧
    (lwTie true ⟨A, mkLatchSpook A d none none⟩).1.latch.base.ready = true ∧
    LEvent.onLatch (.subCb 0 d) ∈
      (lwTie true ⟨A, mkLatchSpook A d none none⟩).2.2.1 ∧
    (lwTie true ⟨A, mkLatchSpook A d none none⟩).2.2.2 = none ∧
    (lwTargetTrigger true
      (lwTie true ⟨A, mkLatchSpook A d none none⟩).1 v1).1.latch.base.value
        = v1 ∧
    (lwTargetTrigger true
      (lwTie true ⟨A, mkLatchSpook A d none none⟩).1 v1).1.latch.hasTarget
        = false ∧
    LEvent.onLatch (.subCb 0 v1) ∈
      (lwTargetTrigger true
        (lwTie true ⟨A, mkLatchSpook A d none none⟩).1 v1).2.1 ∧
    (lwTargetTrigger true
      (lwTie true ⟨A, mkLatchSpook A d none none⟩).1 v1).2.2 = none ∧
    (lwTargetTrigger true
      (lwTargetTrigger true
        (lwTie true ⟨A, mkLatchSpook A d none none⟩).1 v1).1 v2).1.latch =
      (lwTargetTrigger true
        (lwTie true ⟨A, mkLatchSpook A d none none⟩).1 v1).1.latch ∧
    (∀ e, LEvent.onLatch e ∉
      (lwTargetTrigger true
        (lwTargetTrigger true
          (lwTie true ⟨A, mkLatchSpook A d none none⟩).1 v1).1 v2).2.1) ∧
    (lwTargetTrigger true
      (lwTargetTrigger true
        (lwTie true ⟨A, mkLatchSpook A d none none⟩).1 v1).1 v2).2.2 = none := by
  have h0 := lwTie_spec A d hA1 hA4 hd
  have h1 := lwAdopt_spec A d v1 hA2 hA3 hA4 hA5 hA6 hv1 hne
  have h2 := lwDetached_spec
    { A with ready := true, value := v1, thens := [], triggering := none,
             nextId := A.nextId + 1 }
    { base := { subscribers := [0], ready := true, value := v1,
                mayBeNull := A.mayBeNull, users := 1, nextId := 1 },
      hasPoll := false, notifyId := some A.nextId, hasTarget := false }
    v2 rfl rfl hA4
    (by
      intro t ht hsome
      have hlt := hA5 t ht
      simp only [Option.some.injEq] at hsome
      omega)
    (by simp [hA6]) hv2
  rw [h0]
  simp [h1, h2, Function.comp_def, List.mem_map]

/-- Witness for C6 at the spec scenario S3: L = latch(A, default 0);
tie fires with 0, A.trigger(7) fires the subscriber with 7, and
A.trigger(8) produces no latch event at all. -/
theorem C6_latch_adopts_and_detaches_witness :
    LEvent.onLatch (.subCb 0 (.num 0)) ∈
      (lwTie true ⟨{}, mkLatchSpook {} (.num 0) none none⟩).2.2.1 ∧
    LEvent.onLatch (.subCb 0 (.num 7)) ∈
      (lwTargetTrigger true
        (lwTie true ⟨{}, mkLatchSpook {} (.num 0) none none⟩).1 (.num 7)).2.1 ∧
    (∀ e, LEvent.onLatch e ∉
      (lwTargetTrigger true
        (lwTargetTrigger true
          (lwTie true ⟨{}, mkLatchSpook {} (.num 0) none none⟩).1
          (.num 7)).1 (.num 8)).2.1) := by
  have h := C6_latch_adopts_and_detaches {} (.num 0) (.num 7) (.num 8)
    rfl rfl rfl rfl (by intro t ht; exact absurd ht (by simp)) rfl
    (by decide) (by decide) (by decide) (by decide)
  exact ⟨h.2.2.1, h.2.2.2.2.2.2.1, h.2.2.2.2.2.2.2.2.2.1⟩

end Spycraft
